import Mathlib

/-!
Shallow embedding of the Connect-4 game backend
(game service, bot service, matchmaking service, socket handler).

Boards are 6 rows by 7 columns, row 0 at the top; pieces fall to the
largest-index empty row of a column, exactly as in the source.
-/

set_option maxHeartbeats 1000000

namespace Connect4

/-- Cell values of the grid (`src/models/types.ts`, `CellValue`). -/
inductive Cell where
  | empty
  | player1
  | player2
deriving DecidableEq, Repr

/-- The two sides (`currentTurn` values in `GameState`). -/
inductive Turn where
  | player1
  | player2
deriving DecidableEq, Repr

/-- The piece a side drops (`game.board[row][column] = game.currentTurn`). -/
def Turn.toCell : Turn → Cell
  | .player1 => .player1
  | .player2 => .player2

/-- The other side (`game.currentTurn === 'player1' ? 'player2' : 'player1'`). -/
def Turn.other : Turn → Turn
  | .player1 => .player2
  | .player2 => .player1

/-- Session status (`src/models/types.ts`, `GameStatus`). -/
inductive Status where
  | waiting
  | active
  | completed
  | forfeited
deriving DecidableEq, Repr

/-- A participant (`src/models/types.ts`, `Player`). -/
structure Player where
  id : String
  username : String
  socketId : String
  isBot : Bool
deriving DecidableEq, Repr

/-- The grid, a list of 6 rows of 7 cells each. -/
abbrev Board := List (List Cell)

/-- `config.game.rows` (fixed 6 in this design). -/
def rows : Nat := 6

/-- `config.game.cols` (fixed 7 in this design). -/
def cols : Nat := 7

theorem rows_eq : rows = 6 := rfl

theorem cols_eq : cols = 7 := rfl

/-- Read `board[r][c]`.  All reads in the source are guarded by bounds
checks, so the `empty` default is never observed by in-range code. -/
def cellAt (b : Board) (r c : Int) : Cell :=
  if 0 ≤ r ∧ 0 ≤ c then (b.getD r.toNat []).getD c.toNat Cell.empty
  else Cell.empty

/-- Write `board[r][c] = v` (out-of-range writes leave the list as is). -/
def updateCell (b : Board) (r c : Int) (v : Cell) : Board :=
  if 0 ≤ r ∧ 0 ≤ c then b.set r.toNat ((b.getD r.toNat []).set c.toNat v)
  else b

/-- Bounds test used by the scanning loops:
`r >= 0 && r < rows && c >= 0 && c < cols`. -/
def inBoundsI (r c : Int) : Prop :=
  0 ≤ r ∧ r < (rows : Int) ∧ 0 ≤ c ∧ c < (cols : Int)

instance (r c : Int) : Decidable (inBoundsI r c) := by
  unfold inBoundsI; infer_instance

/-- One direction of the `while` loops inside `countInDirection` /
`checkDirection`: starting at `(r, c)`, count consecutive in-bounds cells
equal to `piece`, stepping by `(dr, dc)`.  The loop runs at most 6 times
on a 6 by 7 grid, so fuel 7 is enough; the fuel only makes the recursion
structural. -/
def countRay (b : Board) (piece : Cell) (dr dc : Int) : Nat → Int → Int → Nat
  | 0, _, _ => 0
  | fuel + 1, r, c =>
    if inBoundsI r c ∧ cellAt b r c = piece then
      countRay b piece dr dc fuel (r + dr) (c + dc) + 1
    else 0

/-- `countInDirection` of the bot service, also the body of the game
service's `checkDirection`: 1 for the cell at `(r, c)` plus the runs in
the positive and negative directions. -/
def countInDirection (b : Board) (r c dr dc : Int) (piece : Cell) : Nat :=
  1 + countRay b piece dr dc 7 (r + dr) (c + dc)
    + countRay b piece (-dr) (-dc) 7 (r - dr) (c - dc)

/-- `checkDirection`: a run of four or more through `(r, c)`. -/
def checkDirection (b : Board) (r c dr dc : Int) (piece : Cell) : Bool :=
  decide (4 ≤ countInDirection b r c dr dc piece)

/-- `GameService.checkWinner`: the four axis checks through `(r, c)`. -/
def checkWinner (b : Board) (r c : Int) : Bool :=
  let piece := cellAt b r c
  if piece = Cell.empty then false
  else
    checkDirection b r c 0 1 piece || checkDirection b r c 1 0 piece ||
    checkDirection b r c 1 1 piece || checkDirection b r c 1 (-1) piece

/-- `GameService.isBoardFull`: every top-row cell is non-empty. -/
def isBoardFull (b : Board) : Bool :=
  (b.getD 0 []).all (fun cell => decide (cell ≠ Cell.empty))

/-- The row-finding loop of `makeMove` and the bot's `getLowestEmptyRow`:
scan `r` from `rows - 1` down to 0 and return the first empty row of the
column, if any. -/
def lowestEmptyRow (b : Board) (col : Int) : Option Nat :=
  (List.range rows).reverse.find?
    (fun r => decide (cellAt b (r : Int) col = Cell.empty))

/-- The 6 by 7 board of a fresh game: every cell `empty`. -/
def emptyBoard : Board := List.replicate rows (List.replicate cols Cell.empty)

/-! ## Game service state (`src/services/game.service.ts`) -/

/-- One session (`src/models/types.ts`, `GameState`).  Dates are modelled
as natural-number clock readings; the timer handle is a numeric token. -/
structure GameState where
  id : String
  board : Board
  player1 : Player
  player2 : Option Player
  currentTurn : Turn
  status : Status
  winner : Option String
  createdAt : Nat
  lastMoveAt : Nat
  disconnectedPlayer : Option String
  disconnectTimer : Option Nat
deriving DecidableEq, Repr

/-- JS `Map.get` on an insertion-ordered association list. -/
def assocGet {β : Type} (m : List (String × β)) (k : String) : Option β :=
  (m.find? (fun p => p.1 == k)).map (fun p => p.2)

/-- JS `Map.set` on an insertion-ordered association list: replace in
place when the key exists, append otherwise. -/
def assocSet {β : Type} (m : List (String × β)) (k : String) (v : β) :
    List (String × β) :=
  if m.any (fun p => p.1 == k) then
    m.map (fun p => if p.1 == k then (k, v) else p)
  else m ++ [(k, v)]

/-- The `games` map of `GameService`, as an insertion-ordered association
list keyed by game id (JS `Map` semantics). -/
abbrev Registry := List (String × GameState)

/-- `this.games.get(gameId)`. -/
def lookupGame (reg : Registry) (gid : String) : Option GameState :=
  assocGet reg gid

/-- `this.games.set(gameId, game)`. -/
def storeGame (reg : Registry) (gid : String) (g : GameState) : Registry :=
  assocSet reg gid g

/-- A placement position (`Position` in `types.ts`). -/
structure Position where
  row : Nat
  col : Nat
deriving DecidableEq, Repr

/-- The failure cases of `makeMove`, one per error string in the source.
The spec's `InvalidColumn` class covers both `invalidColumn`
(`'Invalid column'`, out of range) and `columnFull` (`'Column is full'`). -/
inductive MoveError where
  | gameNotFound
  | gameNotActive
  | notYourTurn
  | invalidColumn
  | columnFull
deriving DecidableEq, Repr

/-- `MoveResult` of `types.ts`: either a failure, or a success carrying
the placement position, the winner (if the move won), and the draw flag. -/
inductive MoveResult where
  | failure (error : MoveError)
  | success (position : Position) (winner : Option String) (isDraw : Bool)
deriving DecidableEq, Repr

/-- `game.currentTurn === 'player1' ? game.player1 : game.player2`. -/
def currentPlayerOf (g : GameState) : Option Player :=
  match g.currentTurn with
  | .player1 => some g.player1
  | .player2 => g.player2

/-- `GameService.createGame`.  The source draws a fresh uuid; here the
new id and the clock reading are explicit arguments. -/
def createGame (reg : Registry) (gid : String) (p1 : Player) (now : Nat) :
    GameState × Registry :=
  let g : GameState :=
    { id := gid, board := emptyBoard, player1 := p1, player2 := none,
      currentTurn := .player1, status := .waiting, winner := none,
      createdAt := now, lastMoveAt := now,
      disconnectedPlayer := none, disconnectTimer := none }
  (g, storeGame reg gid g)

/-- `GameService.joinGame`: fails (returns `none`, registry untouched)
unless the game exists, has no second player, and is `waiting`. -/
def joinGame (reg : Registry) (gid : String) (p2 : Player) :
    Option GameState × Registry :=
  match lookupGame reg gid with
  | none => (none, reg)
  | some g =>
    if g.player2.isSome ∨ g.status ≠ Status.waiting then (none, reg)
    else
      let g1 := { g with player2 := some p2, status := Status.active }
      (some g1, storeGame reg gid g1)

/-- `GameService.makeMove`, with the clock reading for `new Date()` as an
explicit argument. -/
def makeMove (reg : Registry) (gid pid : String) (column : Int) (now : Nat) :
    MoveResult × Registry :=
  match lookupGame reg gid with
  | none => (.failure .gameNotFound, reg)
  | some game =>
    if game.status ≠ Status.active then (.failure .gameNotActive, reg)
    else
      match currentPlayerOf game with
      | none => (.failure .notYourTurn, reg)
      | some currentPlayer =>
        if currentPlayer.id ≠ pid then (.failure .notYourTurn, reg)
        else if column < 0 ∨ (cols : Int) ≤ column then
          (.failure .invalidColumn, reg)
        else
          match lowestEmptyRow game.board column with
          | none => (.failure .columnFull, reg)
          | some row =>
            let board1 := updateCell game.board row column game.currentTurn.toCell
            let g1 := { game with board := board1, lastMoveAt := now }
            let pos : Position := ⟨row, column.toNat⟩
            if checkWinner board1 row column then
              (.success pos (some currentPlayer.id) false,
               storeGame reg gid
                 { g1 with status := Status.completed, winner := some currentPlayer.id })
            else if isBoardFull board1 then
              (.success pos none true,
               storeGame reg gid { g1 with status := Status.completed })
            else
              (.success pos none false,
               storeGame reg gid { g1 with currentTurn := g1.currentTurn.other })

/-- `GameService.forfeitGame`: no-op unless the game exists and is
`active`; then status becomes `forfeited` and the winner is the other
participant's id (`opponent?.id || null`: absent opponent, or an empty
id string, leaves the winner null). -/
def forfeitGame (reg : Registry) (gid pid : String) : Registry :=
  match lookupGame reg gid with
  | none => reg
  | some g =>
    if g.status = Status.active then
      let opponent := if g.player1.id = pid then g.player2 else some g.player1
      let w := match opponent with
        | none => none
        | some o => if o.id = "" then none else some o.id
      storeGame reg gid { g with status := Status.forfeited, winner := w }
    else reg

/-- `GameService.setDisconnected`. -/
def setDisconnected (reg : Registry) (gid pid : String) : Registry :=
  match lookupGame reg gid with
  | none => reg
  | some g => storeGame reg gid { g with disconnectedPlayer := some pid }

/-- `GameService.clearDisconnected` (also cancels the pending timer). -/
def clearDisconnected (reg : Registry) (gid : String) : Registry :=
  match lookupGame reg gid with
  | none => reg
  | some g =>
    storeGame reg gid { g with disconnectedPlayer := none, disconnectTimer := none }

/-- `GameService.deleteGame`. -/
def deleteGame (reg : Registry) (gid : String) : Registry :=
  reg.filter (fun p => ¬ (p.1 = gid))

/-! ## Bot service (`src/services/bot.service.ts`)

`wouldWin` and `createsThreeInRow` mutate the board (place, evaluate,
revert), so they are embedded as state-passing functions returning the
board they leave behind; the column loops thread that board through. -/

/-- `BotService.canPlacePiece`: the column's top cell is empty. -/
def canPlacePiece (b : Board) (col : Nat) : Bool :=
  decide (cellAt b 0 (col : Int) = Cell.empty)

/-- `BotService.getLowestEmptyRow` (returns -1 when the column is full). -/
def getLowestEmptyRow (b : Board) (col : Nat) : Int :=
  match lowestEmptyRow b col with
  | some r => (r : Int)
  | none => -1

/-- `BotService.getValidMoves`: the columns 0..6 whose top cell is empty,
in ascending order. -/
def getValidMoves (b : Board) : List Nat :=
  (List.range cols).filter (fun col => canPlacePiece b col)

/-- `BotService.wouldWin`: place `piece` at `(row, col)`, check the four
axes for a run of four, restore the original cell, and return both the
answer and the board left behind. -/
def wouldWin (b : Board) (row : Int) (col : Nat) (piece : Cell) :
    Bool × Board :=
  let originalValue := cellAt b row col
  let b1 := updateCell b row col piece
  let isWin :=
    checkDirection b1 row col 0 1 piece || checkDirection b1 row col 1 0 piece ||
    checkDirection b1 row col 1 1 piece || checkDirection b1 row col 1 (-1) piece
  (isWin, updateCell b1 row col originalValue)

/-- `BotService.createsThreeInRow`: same shape as `wouldWin` with the
threshold 3 on `countInDirection`. -/
def createsThreeInRow (b : Board) (row : Int) (col : Nat) (piece : Cell) :
    Bool × Board :=
  let originalValue := cellAt b row col
  let b1 := updateCell b row col piece
  let hasThree :=
    decide (3 ≤ countInDirection b1 row col 0 1 piece) ||
    decide (3 ≤ countInDirection b1 row col 1 0 piece) ||
    decide (3 ≤ countInDirection b1 row col 1 1 piece) ||
    decide (3 ≤ countInDirection b1 row col 1 (-1) piece)
  (hasThree, updateCell b1 row col originalValue)

/-- The win / block loops of `getBestMove`: scan the columns in order
and return the first legal column whose hypothetical placement wins for
`piece`, threading the board through the hypothetical placements. -/
def findWinColumn (b : Board) (piece : Cell) : List Nat → Option Nat × Board
  | [] => (none, b)
  | col :: rest =>
    if canPlacePiece b col then
      let row := getLowestEmptyRow b col
      let (w, b1) := wouldWin b row col piece
      if w then (some col, b1) else findWinColumn b1 piece rest
    else findWinColumn b piece rest

/-- The build loop of `getBestMove` (priority 3), same shape with
`createsThreeInRow`. -/
def findThreeColumn (b : Board) (piece : Cell) : List Nat → Option Nat × Board
  | [] => (none, b)
  | col :: rest =>
    if canPlacePiece b col then
      let row := getLowestEmptyRow b col
      let (t, b1) := createsThreeInRow b row col piece
      if t then (some col, b1) else findThreeColumn b1 piece rest
    else findThreeColumn b piece rest

/-- `Math.floor(config.game.cols / 2)` = 3. -/
def centerCol : Nat := cols / 2

/-- `Math.abs(a - centerCol)`. -/
def centerDist (a : Nat) : Nat := max (a - centerCol) (centerCol - a)

/-- Stable insertion of `x` before the first element whose distance from
the center is not smaller. -/
def insertByCenter (x : Nat) : List Nat → List Nat
  | [] => [x]
  | y :: ys =>
    if centerDist x ≤ centerDist y then x :: y :: ys
    else y :: insertByCenter x ys

/-- `validMoves.sort((a, b) => Math.abs(a - centerCol) - Math.abs(b - centerCol))`.
`Array.prototype.sort` is a stable sort (ES2019), so its output is the
unique stable ascending reordering by center distance, here produced by
stable insertion sort. -/
def sortByCenter (l : List Nat) : List Nat :=
  l.foldr insertByCenter []

/-- `BotService.getBestMove`: the five-tier cascade.  The first
component is the chosen column (`none` models the `undefined` that
`sortedMoves[0]` yields on an empty list of valid moves); the second is
the board the call leaves behind. -/
def getBestMove (b : Board) (botPiece : Turn) : Option Nat × Board :=
  let opponentPiece := botPiece.other.toCell
  match findWinColumn b botPiece.toCell (List.range cols) with
  | (some col, b1) => (some col, b1)
  | (none, b1) =>
    match findWinColumn b1 opponentPiece (List.range cols) with
    | (some col, b2) => (some col, b2)
    | (none, b2) =>
      match findThreeColumn b2 botPiece.toCell (List.range cols) with
      | (some col, b3) => (some col, b3)
      | (none, b3) =>
        if canPlacePiece b3 centerCol then (some centerCol, b3)
        else
          let validMoves := getValidMoves b3
          let sortedMoves := sortByCenter validMoves
          (sortedMoves.head?, b3)

/-! ## Matchmaking service (`src/services/matchmaking.service.ts`)

Timers are modelled as numeric tokens: arming a timeout allocates the
next token and adds it to the armed set, `clearTimeout` removes it. -/

/-- One waiting entry: the player plus its armed timeout handle. -/
structure WaitingEntry where
  player : Player
  timerId : Nat
deriving DecidableEq, Repr

/-- The matchmaking service's state together with the game service's
registry it mutates: the `waitingPlayers` map (insertion-ordered,
keyed by socket id), the set of armed timers, and a fresh-timer counter. -/
structure MMState where
  waitingPlayers : List (String × WaitingEntry)
  activeTimers : List Nat
  nextTimerId : Nat
  registry : Registry
deriving DecidableEq, Repr

/-- `this.waitingPlayers.set(socketId, entry)`. -/
def mapSetEntry (m : List (String × WaitingEntry)) (k : String)
    (v : WaitingEntry) : List (String × WaitingEntry) :=
  assocSet m k v

/-- `MatchmakingService.addPlayerToQueue`.  `Array.from(values())[0]` is
the first-inserted entry.  The fresh game id (the source draws a uuid)
and the clock reading are explicit arguments.  Returns the matched game
id (or `none`) and the new state. -/
def addPlayerToQueue (st : MMState) (p : Player) (newGid : String) (now : Nat) :
    Option String × MMState :=
  match st.waitingPlayers.head? with
  | some (_, entry) =>
    if entry.player.id ≠ p.id then
      let timers := st.activeTimers.erase entry.timerId
      let wp := st.waitingPlayers.filter
        (fun q => ¬ (q.1 = entry.player.socketId))
      let (game, reg1) := createGame st.registry newGid entry.player now
      let (_, reg2) := joinGame reg1 game.id p
      (some game.id,
       { st with waitingPlayers := wp, activeTimers := timers, registry := reg2 })
    else
      let t := st.nextTimerId
      (none,
       { st with
          waitingPlayers := mapSetEntry st.waitingPlayers p.socketId ⟨p, t⟩,
          activeTimers := t :: st.activeTimers,
          nextTimerId := t + 1 })
  | none =>
    let t := st.nextTimerId
    (none,
     { st with
        waitingPlayers := mapSetEntry st.waitingPlayers p.socketId ⟨p, t⟩,
        activeTimers := t :: st.activeTimers,
        nextTimerId := t + 1 })

/-- `MatchmakingService.removePlayerFromQueue`. -/
def removePlayerFromQueue (st : MMState) (socketId : String) : MMState :=
  match st.waitingPlayers.find? (fun q => q.1 == socketId) with
  | none => st
  | some (_, entry) =>
    { st with
       activeTimers := st.activeTimers.erase entry.timerId,
       waitingPlayers := st.waitingPlayers.filter (fun q => ¬ (q.1 = socketId)) }

/-! ## Socket handler (`src/websocket/game.handler.ts`, `handleMakeMove`) -/

/-- What `handleMakeMove` sends back on the paths the claims touch. -/
inductive HandlerResult where
  | errGameNotFound
  | errPlayerNotFound
  | errMove (e : MoveError)
  | moveOk (position : Position) (winner : Option String) (isDraw : Bool)
deriving DecidableEq, Repr

/-- `game.player1.socketId === socket.id ? game.player1 : game.player2`:
the caller is resolved against `player1`'s socket only; any other socket
is attributed to `player2`. -/
def resolveMovePlayer (g : GameState) (socketId : String) : Option Player :=
  if g.player1.socketId = socketId then some g.player1 else g.player2

/-- `GameHandler.handleMakeMove` up to the move call: look up the game,
resolve the caller by socket, and apply `makeMove` with the resolved
player's id. -/
def handleMakeMove (reg : Registry) (socketId gid : String) (column : Int)
    (now : Nat) : HandlerResult × Registry :=
  match lookupGame reg gid with
  | none => (.errGameNotFound, reg)
  | some g =>
    match resolveMovePlayer g socketId with
    | none => (.errPlayerNotFound, reg)
    | some p =>
      match makeMove reg gid p.id column now with
      | (.failure e, reg1) => (.errMove e, reg1)
      | (.success pos w d, reg1) => (.moveOk pos w d, reg1)

/-! ## Association-list (JS `Map`) lemmas -/

theorem assocGet_cons_eq {β : Type} (hd : String × β) (tl : List (String × β))
    (k : String) (hh : hd.1 = k) : assocGet (hd :: tl) k = some hd.2 := by
  unfold assocGet
  rw [List.find?_cons_of_pos _ (by simpa using hh)]
  rfl

theorem assocGet_cons_ne {β : Type} (hd : String × β) (tl : List (String × β))
    (k : String) (hh : hd.1 ≠ k) : assocGet (hd :: tl) k = assocGet tl k := by
  unfold assocGet
  rw [List.find?_cons_of_neg _ (by simpa using hh)]

theorem assocSet_cons_ne {β : Type} (hd : String × β) (tl : List (String × β))
    (k : String) (v : β) (hh : hd.1 ≠ k) :
    assocSet (hd :: tl) k v = hd :: assocSet tl k v := by
  have hb : (hd.1 == k) = false := beq_eq_false_iff_ne.mpr hh
  unfold assocSet
  simp only [List.any_cons, hb, Bool.false_or]
  split
  · have hf : (if (hd.1 == k) = true then (k, v) else hd) = hd := by simp [hb]
    simp only [List.map_cons, hf]
  · rfl

theorem assocSet_cons_eq {β : Type} (hd : String × β) (tl : List (String × β))
    (k : String) (v : β) (hh : hd.1 = k) :
    assocSet (hd :: tl) k v
      = (k, v) :: tl.map (fun p => if p.1 == k then (k, v) else p) := by
  have hb : (hd.1 == k) = true := beq_iff_eq.mpr hh
  unfold assocSet
  rw [if_pos (by simp [List.any_cons, hb])]
  simp only [List.map_cons, if_pos hb]

theorem assocGet_set_self {β : Type} (m : List (String × β)) (k : String) (v : β) :
    assocGet (assocSet m k v) k = some v := by
  induction m with
  | nil => simp [assocSet, assocGet]
  | cons hd tl ih =>
    by_cases hh : hd.1 = k
    · rw [assocSet_cons_eq hd tl k v hh, assocGet_cons_eq (k, v) _ k rfl]
    · rw [assocSet_cons_ne hd tl k v hh, assocGet_cons_ne hd _ k hh]
      exact ih

theorem assocGet_map_set {β : Type} (tl : List (String × β)) (k k' : String)
    (v : β) (h : k' ≠ k) :
    assocGet (tl.map (fun p => if p.1 == k then (k, v) else p)) k'
      = assocGet tl k' := by
  induction tl with
  | nil => rfl
  | cons q tlr ih =>
    by_cases hq : q.1 = k
    · rw [List.map_cons, if_pos (by simpa using hq)]
      rw [assocGet_cons_ne (k, v) _ k' (Ne.symm h),
          assocGet_cons_ne q _ k' (by rw [hq]; exact Ne.symm h)]
      exact ih
    · rw [List.map_cons, if_neg (by simpa using hq)]
      by_cases hk' : q.1 = k'
      · rw [assocGet_cons_eq q _ k' hk', assocGet_cons_eq q _ k' hk']
      · rw [assocGet_cons_ne q _ k' hk', assocGet_cons_ne q _ k' hk']
        exact ih

theorem assocGet_set_other {β : Type} (m : List (String × β)) (k k' : String)
    (v : β) (h : k' ≠ k) : assocGet (assocSet m k v) k' = assocGet m k' := by
  induction m with
  | nil =>
    simp only [assocSet, List.any_nil, Bool.false_eq_true, if_false, List.nil_append]
    rw [assocGet_cons_ne (k, v) [] k' (Ne.symm h)]
  | cons hd tl ih =>
    by_cases hh : hd.1 = k
    · rw [assocSet_cons_eq hd tl k v hh,
          assocGet_cons_ne (k, v) _ k' (Ne.symm h)]
      by_cases hk' : hd.1 = k'
      · exact absurd (hk' ▸ hh) h
      · rw [assocGet_cons_ne hd tl k' hk']
        exact assocGet_map_set tl k k' v h
    · rw [assocSet_cons_ne hd tl k v hh]
      by_cases hk' : hd.1 = k'
      · rw [assocGet_cons_eq hd _ k' hk', assocGet_cons_eq hd tl k' hk']
      · rw [assocGet_cons_ne hd _ k' hk', assocGet_cons_ne hd tl k' hk']
        exact ih

/-- Splitting a lookup after a store: either we read the stored value at
the stored key, or the store did not touch the key we read. -/
theorem lookupGame_store_cases {reg : Registry} {gid id : String}
    {g g' : GameState} (h : lookupGame (storeGame reg gid g) id = some g') :
    (id = gid ∧ g' = g) ∨ (id ≠ gid ∧ lookupGame reg id = some g') := by
  by_cases hid : id = gid
  · subst hid
    left
    refine ⟨rfl, ?_⟩
    have := assocGet_set_self reg id g
    unfold lookupGame storeGame at h
    rw [this] at h
    exact (Option.some_inj.mp h).symm
  · right
    refine ⟨hid, ?_⟩
    unfold lookupGame storeGame at h
    rwa [assocGet_set_other reg gid id g hid] at h

/-! ## List set / read lemmas and the place-revert round trip -/

theorem set_getD_self {α : Type} (l : List α) (i : Nat) (d : α) :
    l.set i (l.getD i d) = l := by
  rcases Nat.lt_or_ge i l.length with h | h
  · apply List.ext_getElem?
    intro n
    rw [List.getElem?_set]
    split
    · rename_i hin
      subst hin
      simp [List.getD_eq_getElem?_getD, List.getElem?_eq_getElem h, h]
    · rfl
  · exact List.set_eq_of_length_le h

/-- Place then revert restores the board, cell for cell. -/
theorem updateCell_restore (b : Board) (r c : Int) (v : Cell) :
    updateCell (updateCell b r c v) r c (cellAt b r c) = b := by
  unfold updateCell cellAt
  by_cases h : 0 ≤ r ∧ 0 ≤ c
  · simp only [if_pos h]
    set i := r.toNat
    set j := c.toNat
    rcases Nat.lt_or_ge i b.length with hi | hi
    · have hgd : (b.set i ((b.getD i []).set j v)).getD i [] = (b.getD i []).set j v := by
        simp [List.getD_eq_getElem?_getD, List.getElem?_set, hi]
      rw [hgd, List.set_set, List.set_set, set_getD_self, set_getD_self]
    · rw [List.set_eq_of_length_le hi, List.set_eq_of_length_le hi]
  · simp only [if_neg h]

/-- What a hypothetical placement reads back at the placed cell: the
piece when the write landed, the old value when it fell outside the
lists. -/
theorem cellAt_updateCell_self_or (b : Board) (r c : Int) (v : Cell) :
    cellAt (updateCell b r c v) r c = v ∨
    cellAt (updateCell b r c v) r c = cellAt b r c := by
  unfold updateCell cellAt
  by_cases h : 0 ≤ r ∧ 0 ≤ c
  · simp only [if_pos h]
    set i := r.toNat
    set j := c.toNat
    rcases Nat.lt_or_ge i b.length with hi | hi
    · have hgd : (b.set i ((b.getD i []).set j v)).getD i [] = (b.getD i []).set j v := by
        simp [List.getD_eq_getElem?_getD, List.getElem?_set, hi]
      rw [hgd]
      rcases Nat.lt_or_ge j (b.getD i []).length with hj | hj
      · left
        have hj' : j < (b[i]?.getD []).length := by
          simpa [List.getD_eq_getElem?_getD] using hj
        simp [List.getD_eq_getElem?_getD, List.getElem?_set, hj']
      · right
        rw [List.set_eq_of_length_le hj]
    · right
      rw [List.set_eq_of_length_le hi]
  · right
    simp only [if_neg h]

/-- On a 6 by 7 grid an in-range placement always lands. -/
theorem cellAt_updateCell_grid {b : Board} (hlen : b.length = rows)
    (hcols : ∀ row ∈ b, row.length = cols) {r c : Int} (v : Cell)
    (hb : inBoundsI r c) :
    cellAt (updateCell b r c v) r c = v := by
  obtain ⟨h1, h2, h3, h4⟩ := hb
  have h2' : r < 6 := by simpa [rows_eq] using h2
  have h4' : c < 7 := by simpa [cols_eq] using h4
  unfold updateCell cellAt
  simp only [if_pos (And.intro h1 h3)]
  set i := r.toNat with hi
  set j := c.toNat with hj
  have hilt : i < b.length := by
    rw [hlen, rows_eq]; omega
  have hrowlen : (b.getD i []).length = cols := by
    have : b.getD i [] = b[i] := by
      simp [List.getD_eq_getElem?_getD, List.getElem?_eq_getElem hilt]
    rw [this]
    exact hcols _ (List.getElem_mem hilt)
  have hjlt : j < (b.getD i []).length := by
    rw [hrowlen, cols_eq]; omega
  have hgd : (b.set i ((b.getD i []).set j v)).getD i [] = (b.getD i []).set j v := by
    simp [List.getD_eq_getElem?_getD, List.getElem?_set, hilt]
  rw [hgd]
  have hjlt' : j < (b[i]?.getD []).length := by
    simpa [List.getD_eq_getElem?_getD] using hjlt
  simp [List.getD_eq_getElem?_getD, List.getElem?_set, hjlt']

/-- Reading any other cell is unaffected by a placement. -/
theorem cellAt_updateCell_ne (b : Board) {r c r' c' : Int} (v : Cell)
    (h : ¬ (r' = r ∧ c' = c)) :
    cellAt (updateCell b r c v) r' c' = cellAt b r' c' := by
  by_cases hg : 0 ≤ r ∧ 0 ≤ c
  · by_cases hg' : 0 ≤ r' ∧ 0 ≤ c'
    · unfold updateCell cellAt
      simp only [if_pos hg, if_pos hg']
      by_cases hr : r'.toNat = r.toNat
      · have hcnat : c'.toNat ≠ c.toNat := by omega
        rcases Nat.lt_or_ge r.toNat b.length with hi | hi
        · have hread : (b.set r.toNat ((b.getD r.toNat []).set c.toNat v)).getD r'.toNat []
              = (b.getD r.toNat []).set c.toNat v := by
            rw [hr]
            simp [List.getD_eq_getElem?_getD, List.getElem?_set, hi]
          rw [hread, hr]
          simp [List.getD_eq_getElem?_getD, List.getElem?_set, hcnat, Ne.symm hcnat]
        · rw [List.set_eq_of_length_le hi, hr]
      · have hread : (b.set r.toNat ((b.getD r.toNat []).set c.toNat v)).getD r'.toNat []
            = b.getD r'.toNat [] := by
          simp [List.getD_eq_getElem?_getD, List.getElem?_set, Ne.symm hr]
        rw [hread]
    · simp [cellAt, hg']
  · have hid : updateCell b r c v = b := by
      unfold updateCell
      rw [if_neg hg]
    rw [hid]

/-! ## Scanning-loop lemmas: `find?` over column / row ranges -/

theorem find?_range_eq_some {p : Nat → Bool} {n c : Nat} :
    (List.range n).find? p = some c ↔
      c < n ∧ p c = true ∧ ∀ j, j < c → p j = false := by
  induction n generalizing c with
  | zero => simp
  | succ m ih =>
    rw [List.range_succ, List.find?_append]
    rcases hf : (List.range m).find? p with _ | c'
    · have hnone : ∀ j, j < m → p j = false := by
        intro j hj
        have := List.find?_eq_none.mp hf j (List.mem_range.mpr hj)
        simpa using this
      simp only [Option.none_or]
      by_cases hp : p m = true
      · rw [List.find?_cons_of_pos _ hp]
        constructor
        · intro h
          injection h with h
          subst h
          exact ⟨Nat.lt_succ_self m, hp, hnone⟩
        · rintro ⟨hc, hpc, _⟩
          have hcm : c = m := by
            rcases Nat.lt_succ_iff_lt_or_eq.mp hc with h | h
            · rw [hnone c h] at hpc
              cases hpc
            · exact h
          subst hcm
          rfl
      · rw [List.find?_cons_of_neg _ (by simpa using hp)]
        simp only [List.find?_nil]
        constructor
        · rintro ⟨⟩
        · rintro ⟨hc, hpc, _⟩
          rcases Nat.lt_succ_iff_lt_or_eq.mp hc with h | h
          · rw [hnone c h] at hpc
            cases hpc
          · subst h
            exact absurd hpc hp
    · simp only [Option.or_some]
      obtain ⟨hc', hpc', hall'⟩ := (@ih c').mp hf
      constructor
      · intro h
        injection h with h
        subst h
        exact ⟨Nat.lt_succ_of_lt hc', hpc', hall'⟩
      · rintro ⟨hc, hpc, hall⟩
        have hcc : c' = c := by
          by_contra hne
          rcases Nat.lt_or_ge c' c with h | h
          · rw [hall c' h] at hpc'
            cases hpc'
          · have hlt : c < c' := by omega
            rw [hall' c hlt] at hpc
            cases hpc
        rw [hcc]

theorem find?_range_eq_none {p : Nat → Bool} {n : Nat} :
    (List.range n).find? p = none ↔ ∀ j, j < n → p j = false := by
  rw [List.find?_eq_none]
  constructor
  · intro h j hj
    have := h j (List.mem_range.mpr hj)
    simpa using this
  · intro h x hx
    rw [List.mem_range] at hx
    simp [h x hx]

theorem find?_reverse_range_eq_some {p : Nat → Bool} {n r : Nat} :
    (List.range n).reverse.find? p = some r ↔
      r < n ∧ p r = true ∧ ∀ j, r < j → j < n → p j = false := by
  induction n with
  | zero => simp
  | succ m ih =>
    rw [List.range_succ, List.reverse_append]
    simp only [List.reverse_cons, List.reverse_nil, List.nil_append,
      List.singleton_append]
    by_cases hp : p m = true
    · rw [List.find?_cons_of_pos _ hp]
      constructor
      · intro h
        injection h with h
        subst h
        exact ⟨Nat.lt_succ_self m, hp, fun j h1 h2 => by omega⟩
      · rintro ⟨hr, hpr, hall⟩
        have hrm : r = m := by
          by_contra hne
          have hlt : r < m := by omega
          rw [hall m hlt (Nat.lt_succ_self m)] at hp
          cases hp
        subst hrm
        rfl
    · rw [List.find?_cons_of_neg _ (by simpa using hp)]
      rw [ih]
      constructor
      · rintro ⟨hr, hpr, hall⟩
        refine ⟨Nat.lt_succ_of_lt hr, hpr, ?_⟩
        intro j h1 h2
        rcases Nat.lt_succ_iff_lt_or_eq.mp h2 with h | h
        · exact hall j h1 h
        · subst h
          simpa using hp
      · rintro ⟨hr, hpr, hall⟩
        have hrm : r ≠ m := by
          rintro rfl
          exact hp hpr
        exact ⟨by omega, hpr, fun j h1 h2 => hall j h1 (by omega)⟩

theorem find?_reverse_range_eq_none {p : Nat → Bool} {n : Nat} :
    (List.range n).reverse.find? p = none ↔ ∀ j, j < n → p j = false := by
  rw [List.find?_eq_none]
  constructor
  · intro h j hj
    have := h j (by rw [List.mem_reverse]; exact List.mem_range.mpr hj)
    simpa using this
  · intro h x hx
    rw [List.mem_reverse, List.mem_range] at hx
    simp [h x hx]

/-- What `lowestEmptyRow b col = some row` says: `row` is in range, the
cell there is empty, and every row strictly below it is occupied — i.e.
`row` is the lowest empty row of the column. -/
theorem lowestEmptyRow_eq_some {b : Board} {col : Int} {row : Nat} :
    lowestEmptyRow b col = some row ↔
      row < 6 ∧ cellAt b row col = Cell.empty ∧
        ∀ j : Nat, row < j → j < 6 → cellAt b j col ≠ Cell.empty := by
  unfold lowestEmptyRow
  rw [rows_eq, find?_reverse_range_eq_some]
  simp [decide_eq_true_eq]

/-- `lowestEmptyRow b col = none` says the whole column is occupied. -/
theorem lowestEmptyRow_eq_none {b : Board} {col : Int} :
    lowestEmptyRow b col = none ↔
      ∀ j : Nat, j < 6 → cellAt b j col ≠ Cell.empty := by
  unfold lowestEmptyRow
  rw [rows_eq, find?_reverse_range_eq_none]
  simp [decide_eq_true_eq]

/-! ## Runs through a cell: the spec-side reading of the axis scans -/

/-- `rayOk b piece r c dr dc i`: the `i`-th position along the ray from
`(r, c)` stepping by `(dr, dc)` is in bounds and holds `piece`. -/
def rayOk (b : Board) (piece : Cell) (r c dr dc : Int) (i : Nat) : Prop :=
  inBoundsI (r + i * dr) (c + i * dc) ∧ cellAt b (r + i * dr) (c + i * dc) = piece

theorem rayOk_zero (b : Board) (piece : Cell) (r c dr dc : Int) :
    rayOk b piece r c dr dc 0 ↔ inBoundsI r c ∧ cellAt b r c = piece := by
  unfold rayOk
  norm_num

theorem rayOk_succ (b : Board) (piece : Cell) (r c dr dc : Int) (i : Nat) :
    rayOk b piece (r + dr) (c + dc) dr dc i ↔ rayOk b piece r c dr dc (i + 1) := by
  unfold rayOk
  have e1 : r + dr + (i : Int) * dr = r + ((i + 1 : Nat) : Int) * dr := by
    push_cast
    ring
  have e2 : c + dc + (i : Int) * dc = c + ((i + 1 : Nat) : Int) * dc := by
    push_cast
    ring
  rw [e1, e2]

/-- The while loops of `countInDirection` compute the longest all-`piece`
prefix of the ray: every counted position is on the run, and the first
uncounted one is not, provided the fuel outlasts the run. -/
theorem countRay_spec (b : Board) (piece : Cell) (dr dc : Int) :
    ∀ (fuel : Nat) (r c : Int),
      (∃ j, j < fuel ∧ ¬ rayOk b piece r c dr dc j) →
      (∀ i, i < countRay b piece dr dc fuel r c → rayOk b piece r c dr dc i) ∧
        ¬ rayOk b piece r c dr dc (countRay b piece dr dc fuel r c) := by
  intro fuel
  induction fuel with
  | zero =>
    rintro r c ⟨j, hj, _⟩
    exact absurd hj (Nat.not_lt_zero j)
  | succ m ih =>
    rintro r c ⟨j, hj, hnot⟩
    by_cases h0 : inBoundsI r c ∧ cellAt b r c = piece
    · have hray0 : rayOk b piece r c dr dc 0 := (rayOk_zero b piece r c dr dc).mpr h0
      have hcount : countRay b piece dr dc (m + 1) r c
          = countRay b piece dr dc m (r + dr) (c + dc) + 1 := by
        simp only [countRay, if_pos h0]
      have hj0 : j ≠ 0 := by
        rintro rfl
        exact hnot hray0
      obtain ⟨j', rfl⟩ : ∃ j', j = j' + 1 := ⟨j - 1, by omega⟩
      have hex : ∃ j'', j'' < m ∧ ¬ rayOk b piece (r + dr) (c + dc) dr dc j'' :=
        ⟨j', by omega, fun hok => hnot ((rayOk_succ b piece r c dr dc j').mp hok)⟩
      obtain ⟨hall, hend⟩ := ih (r + dr) (c + dc) hex
      rw [hcount]
      constructor
      · intro i hi
        cases i with
        | zero => exact hray0
        | succ i' =>
          exact (rayOk_succ b piece r c dr dc i').mp (hall i' (by omega))
      · intro hok
        exact hend ((rayOk_succ b piece r c dr dc _).mpr hok)
    · have hcount : countRay b piece dr dc (m + 1) r c = 0 := by
        simp only [countRay, if_neg h0]
      rw [hcount]
      exact ⟨fun i hi => absurd hi (Nat.not_lt_zero i),
        fun hok => h0 ((rayOk_zero b piece r c dr dc).mp hok)⟩

/-- Along any of the four scanned axes, a ray starting one step from an
in-bounds cell leaves the 6 by 7 bounds within 6 further steps. -/
theorem rayOk_six_false (b : Board) (piece : Cell) {r c dr dc : Int}
    (hb : inBoundsI r c)
    (hd : (dr = 1 ∨ dr = -1) ∨ (dr = 0 ∧ (dc = 1 ∨ dc = -1))) :
    ¬ rayOk b piece (r + dr) (c + dc) dr dc 6 := by
  rintro ⟨hin, _⟩
  obtain ⟨h1, h2, h3, h4⟩ := hb
  obtain ⟨g1, g2, g3, g4⟩ := hin
  rw [rows_eq] at h2 g2
  rw [cols_eq] at h4 g4
  push_cast at h2 h4 g1 g2 g3 g4
  omega

/-- The spec's run notion: through `(r, c)` there is a contiguous run of
at least `k` cells equal to the cell at `(r, c)` along axis `(dr, dc)`,
extending `a` steps one way and `bp` steps the other. -/
def pieceRunGe (b : Board) (r c dr dc : Int) (k : Nat) : Prop :=
  ∃ a bp : Nat, k ≤ a + bp + 1 ∧
    (∀ i : Nat, i ≤ a → rayOk b (cellAt b r c) r c (-dr) (-dc) i) ∧
    (∀ i : Nat, i ≤ bp → rayOk b (cellAt b r c) r c dr dc i)

/-- The scanned count reaches `k` exactly when a contiguous run of `k`
through the cell exists on that axis. -/
theorem count_ge_iff_pieceRunGe (b : Board) (r c dr dc : Int) (k : Nat)
    (hb : inBoundsI r c)
    (hd : (dr = 1 ∨ dr = -1) ∨ (dr = 0 ∧ (dc = 1 ∨ dc = -1))) :
    k ≤ countInDirection b r c dr dc (cellAt b r c) ↔ pieceRunGe b r c dr dc k := by
  have hdneg : ((-dr) = 1 ∨ (-dr) = -1) ∨ ((-dr) = 0 ∧ ((-dc) = 1 ∨ (-dc) = -1)) := by
    omega
  have hsub : r - dr = r + (-dr) := sub_eq_add_neg r dr
  have hsubc : c - dc = c + (-dc) := sub_eq_add_neg c dc
  have hstopPos : ∃ j, j < 7 ∧ ¬ rayOk b (cellAt b r c) (r + dr) (c + dc) dr dc j :=
    ⟨6, by omega, rayOk_six_false b (cellAt b r c) hb hd⟩
  have hstopNeg : ∃ j, j < 7 ∧ ¬ rayOk b (cellAt b r c) (r - dr) (c - dc) (-dr) (-dc) j := by
    refine ⟨6, by omega, ?_⟩
    rw [hsub, hsubc]
    exact rayOk_six_false b (cellAt b r c) hb hdneg
  obtain ⟨hposAll, hposEnd⟩ :=
    countRay_spec b (cellAt b r c) dr dc 7 (r + dr) (c + dc) hstopPos
  obtain ⟨hnegAll, hnegEnd⟩ :=
    countRay_spec b (cellAt b r c) (-dr) (-dc) 7 (r - dr) (c - dc) hstopNeg
  rw [hsub, hsubc] at hnegAll hnegEnd
  have hone : countInDirection b r c dr dc (cellAt b r c)
      = 1 + countRay b (cellAt b r c) dr dc 7 (r + dr) (c + dc)
        + countRay b (cellAt b r c) (-dr) (-dc) 7 (r - dr) (c - dc) := rfl
  rw [hsub, hsubc] at hone
  constructor
  · intro hk
    refine ⟨countRay b (cellAt b r c) (-dr) (-dc) 7 (r + -dr) (c + -dc),
      countRay b (cellAt b r c) dr dc 7 (r + dr) (c + dc), by omega, ?_, ?_⟩
    · intro i hi
      cases i with
      | zero =>
        exact (rayOk_zero b (cellAt b r c) r c (-dr) (-dc)).mpr ⟨hb, rfl⟩
      | succ i' =>
        exact (rayOk_succ b (cellAt b r c) r c (-dr) (-dc) i').mp
          (hnegAll i' (by omega))
    · intro i hi
      cases i with
      | zero =>
        exact (rayOk_zero b (cellAt b r c) r c dr dc).mpr ⟨hb, rfl⟩
      | succ i' =>
        exact (rayOk_succ b (cellAt b r c) r c dr dc i').mp
          (hposAll i' (by omega))
  · rintro ⟨a, bp, hk, hneg, hpos⟩
    have hbp : bp ≤ countRay b (cellAt b r c) dr dc 7 (r + dr) (c + dc) := by
      by_contra hgt
      exact hposEnd ((rayOk_succ b (cellAt b r c) r c dr dc _).mpr
        (hpos _ (by omega)))
    have ha : a ≤ countRay b (cellAt b r c) (-dr) (-dc) 7 (r + -dr) (c + -dc) := by
      by_contra hgt
      exact hnegEnd ((rayOk_succ b (cellAt b r c) r c (-dr) (-dc) _).mpr
        (hneg _ (by omega)))
    omega

/-- A run of at least `k` through `(r, c)` along one of the four axes. -/
def runSomeAxis (b : Board) (r c : Int) (k : Nat) : Prop :=
  pieceRunGe b r c 0 1 k ∨ pieceRunGe b r c 1 0 k ∨
  pieceRunGe b r c 1 1 k ∨ pieceRunGe b r c 1 (-1) k

/-- `checkWinner` answers true exactly when the cell sits on a
contiguous run of four or more identical cells along some axis. -/
theorem checkWinner_iff_runSomeAxis (b : Board) {r c : Int}
    (hb : inBoundsI r c) (hne : cellAt b r c ≠ Cell.empty) :
    checkWinner b r c = true ↔ runSomeAxis b r c 4 := by
  unfold checkWinner checkDirection runSomeAxis
  simp only [if_neg hne, Bool.or_eq_true, decide_eq_true_eq]
  rw [count_ge_iff_pieceRunGe b r c 0 1 4 hb (by omega),
      count_ge_iff_pieceRunGe b r c 1 0 4 hb (by omega),
      count_ge_iff_pieceRunGe b r c 1 1 4 hb (by omega),
      count_ge_iff_pieceRunGe b r c 1 (-1) 4 hb (by omega)]
  tauto

/-! ## Bot service lemmas -/

/-- `wouldWin` puts the original cell value back: the board it returns
is the board it was given. -/
theorem wouldWin_board (b : Board) (row : Int) (col : Nat) (piece : Cell) :
    (wouldWin b row col piece).2 = b :=
  updateCell_restore b row col piece

/-- `createsThreeInRow` also reverts its hypothetical placement. -/
theorem createsThreeInRow_board (b : Board) (row : Int) (col : Nat) (piece : Cell) :
    (createsThreeInRow b row col piece).2 = b :=
  updateCell_restore b row col piece

/-- The win / block loop is `find?` over the scanned columns, and it
hands back the board unchanged. -/
theorem findWinColumn_eq (piece : Cell) : ∀ (l : List Nat) (b : Board),
    findWinColumn b piece l
      = (l.find? (fun col => canPlacePiece b col &&
          (wouldWin b (getLowestEmptyRow b col) col piece).1), b) := by
  intro l
  induction l with
  | nil =>
    intro b
    rfl
  | cons col rest ih =>
    intro b
    unfold findWinColumn
    by_cases hc : canPlacePiece b col = true
    · rw [if_pos hc]
      rcases hw : wouldWin b (getLowestEmptyRow b col) col piece with ⟨w, b1⟩
      have hb1 : b1 = b := by
        have h2 := wouldWin_board b (getLowestEmptyRow b col) col piece
        rwa [hw] at h2
      subst hb1
      cases w
      · simp only [hw]
        rw [List.find?_cons_of_neg _ (by simp [hc, hw])]
        exact ih _
      · simp only [hw]
        rw [if_pos trivial, List.find?_cons_of_pos _ (by simp [hc, hw])]
    · rw [if_neg hc]
      rw [List.find?_cons_of_neg _ (by simp [hc])]
      exact ih _

/-- The build loop (priority 3), same shape. -/
theorem findThreeColumn_eq (piece : Cell) : ∀ (l : List Nat) (b : Board),
    findThreeColumn b piece l
      = (l.find? (fun col => canPlacePiece b col &&
          (createsThreeInRow b (getLowestEmptyRow b col) col piece).1), b) := by
  intro l
  induction l with
  | nil =>
    intro b
    rfl
  | cons col rest ih =>
    intro b
    unfold findThreeColumn
    by_cases hc : canPlacePiece b col = true
    · rw [if_pos hc]
      rcases hw : createsThreeInRow b (getLowestEmptyRow b col) col piece with ⟨t, b1⟩
      have hb1 : b1 = b := by
        have h2 := createsThreeInRow_board b (getLowestEmptyRow b col) col piece
        rwa [hw] at h2
      subst hb1
      cases t
      · simp only [hw]
        rw [List.find?_cons_of_neg _ (by simp [hc, hw])]
        exact ih _
      · simp only [hw]
        rw [if_pos trivial, List.find?_cons_of_pos _ (by simp [hc, hw])]
    · rw [if_neg hc]
      rw [List.find?_cons_of_neg _ (by simp [hc])]
      exact ih _

/-- `getBestMove` never mutates the board it is given. -/
theorem getBestMove_board (b : Board) (side : Turn) :
    (getBestMove b side).2 = b := by
  simp only [getBestMove]
  rw [findWinColumn_eq]
  rcases h1 : (List.range cols).find? (fun col => canPlacePiece b col &&
      (wouldWin b (getLowestEmptyRow b col) col side.toCell).1) with _ | c1
  · simp only [h1]
    rw [findWinColumn_eq]
    rcases h2 : (List.range cols).find? (fun col => canPlacePiece b col &&
        (wouldWin b (getLowestEmptyRow b col) col side.other.toCell).1) with _ | c2
    · simp only [h2]
      rw [findThreeColumn_eq]
      rcases h3 : (List.range cols).find? (fun col => canPlacePiece b col &&
          (createsThreeInRow b (getLowestEmptyRow b col) col side.toCell).1) with _ | c3
      · simp only [h3]
        by_cases hc : canPlacePiece b centerCol = true
        · simp [hc]
        · simp [hc]
      · simp [h3]
    · simp [h2]
  · simp [h1]

/-! ## Claim theorems: board evaluator and bot frame -/

/-- A well-formed 6 by 7 grid. -/
def isGrid (b : Board) : Prop :=
  b.length = rows ∧ ∀ row ∈ b, row.length = cols

instance (b : Board) : Decidable (isGrid b) := by
  unfold isGrid
  infer_instance

/-- An all-empty row of 7 cells, for literal test boards. -/
def emptyRow7 : List Cell := List.replicate 7 Cell.empty

/-- Side A at (5,0), (5,1), (5,2) and a fresh placement at (5,3). -/
def winDemoBoard : Board :=
  [emptyRow7, emptyRow7, emptyRow7, emptyRow7, emptyRow7,
   [Cell.player1, Cell.player1, Cell.player1, Cell.player1,
    Cell.empty, Cell.empty, Cell.empty]]

/-- C3: on a 6 by 7 grid, for every in-range cell holding a non-empty
piece, `checkWinner` answers true iff that cell lies on a contiguous run
of four or more cells of the same piece along one of the four axes,
counting contiguously in both directions from the cell. -/
theorem checkWinner_iff_contiguous_run (b : Board) (r c : Int)
    (_hgrid : isGrid b) (hb : inBoundsI r c)
    (hne : cellAt b r c ≠ Cell.empty) :
    checkWinner b r c = true ↔ runSomeAxis b r c 4 :=
  checkWinner_iff_runSomeAxis b hb hne

/-- Witness for C3 at the spec's literal board: side A on (5,0)..(5,2)
with the placement at (5,3) is a win. -/
theorem checkWinner_iff_contiguous_run_witness :
    (checkWinner winDemoBoard 5 3 = true ↔ runSomeAxis winDemoBoard 5 3 4)
      ∧ checkWinner winDemoBoard 5 3 = true :=
  ⟨checkWinner_iff_contiguous_run winDemoBoard 5 3 (by decide) (by decide)
      (by decide),
   by decide⟩

/-- The same three-in-a-row with a gap at (5,2): placing at (5,3) does
not win (sanity companion to the run characterization). -/
theorem checkWinner_gap_no_win :
    checkWinner
      [emptyRow7, emptyRow7, emptyRow7, emptyRow7, emptyRow7,
       [Cell.player1, Cell.player1, Cell.empty, Cell.player1,
        Cell.empty, Cell.empty, Cell.empty]] 5 3 = false := by
  decide

/-- C8: the bot's hypothetical placements (place, evaluate, revert) in
`wouldWin` and `createsThreeInRow` hand back the original cell value, so
`getBestMove` leaves the grid exactly as it found it, cell for cell. -/
theorem getBestMove_preserves_board (b : Board) (row : Int) (col : Nat)
    (piece : Cell) (side : Turn) :
    (wouldWin b row col piece).2 = b ∧
    (createsThreeInRow b row col piece).2 = b ∧
    (getBestMove b side).2 = b :=
  ⟨wouldWin_board b row col piece, createsThreeInRow_board b row col piece,
   getBestMove_board b side⟩

/-! ## `makeMove` lemmas -/

/-- The success path of `makeMove`, fully characterized: the piece goes
to the lowest empty row of the column, `lastMoveAt` is stamped, and
exactly one of the win / draw / turn-alternation branches happens. -/
theorem makeMove_success_core
    (reg : Registry) (gid pid : String) (column : Int) (now : Nat)
    (g : GameState) (cp : Player) (row : Nat)
    (hg : lookupGame reg gid = some g)
    (hact : g.status = Status.active)
    (hcp : currentPlayerOf g = some cp)
    (hid : cp.id = pid)
    (hc0 : 0 ≤ column) (hc7 : column < (cols : Int))
    (hrow : lowestEmptyRow g.board column = some row) :
    cellAt g.board (row : Int) column = Cell.empty ∧
    (∀ j : Nat, row < j → j < 6 → cellAt g.board (j : Int) column ≠ Cell.empty) ∧
    (∃ g1 : GameState,
      (makeMove reg gid pid column now).2 = storeGame reg gid g1 ∧
      lookupGame (makeMove reg gid pid column now).2 gid = some g1 ∧
      g1.board = updateCell g.board (row : Int) column g.currentTurn.toCell ∧
      g1.lastMoveAt = now ∧
      g1.player1 = g.player1 ∧ g1.player2 = g.player2 ∧
      (if checkWinner (updateCell g.board (row : Int) column g.currentTurn.toCell)
          (row : Int) column then
        (makeMove reg gid pid column now).1
            = MoveResult.success ⟨row, column.toNat⟩ (some cp.id) false ∧
        g1.status = Status.completed ∧ g1.winner = some cp.id ∧
        g1.currentTurn = g.currentTurn
      else if isBoardFull (updateCell g.board (row : Int) column g.currentTurn.toCell) then
        (makeMove reg gid pid column now).1
            = MoveResult.success ⟨row, column.toNat⟩ none true ∧
        g1.status = Status.completed ∧ g1.winner = g.winner ∧
        g1.currentTurn = g.currentTurn
      else
        (makeMove reg gid pid column now).1
            = MoveResult.success ⟨row, column.toNat⟩ none false ∧
        g1.status = Status.active ∧ g1.winner = g.winner ∧
        g1.currentTurn = g.currentTurn.other)) := by
  obtain ⟨hlt, hemp, habove⟩ := lowestEmptyRow_eq_some.mp hrow
  refine ⟨hemp, habove, ?_⟩
  have hnact : ¬ (g.status ≠ Status.active) := by simp [hact]
  have hnid : ¬ (cp.id ≠ pid) := by simp [hid]
  have hncol : ¬ (column < 0 ∨ (cols : Int) ≤ column) := by
    push_neg
    exact ⟨hc0, hc7⟩
  simp only [makeMove, hg, if_neg hnact, hcp, if_neg hnid, if_neg hncol, hrow]
  split
  · refine ⟨_, rfl, ?_, rfl, rfl, rfl, rfl, ?_⟩
    · exact assocGet_set_self reg gid _
    · exact ⟨rfl, rfl, rfl, rfl⟩
  · rename_i hnwin
    split
    · rename_i hfull
      refine ⟨_, rfl, ?_, rfl, rfl, rfl, rfl, ?_⟩
      · exact assocGet_set_self reg gid _
      · exact ⟨rfl, rfl, rfl, rfl⟩
    · rename_i hnfull
      refine ⟨_, rfl, ?_, rfl, rfl, rfl, rfl, ?_⟩
      · exact assocGet_set_self reg gid _
      · exact ⟨rfl, by simp [hact], rfl, rfl⟩

/-! ## Demo sessions for concrete witnesses -/

def demoP1 : Player := ⟨"p1", "alice", "s1", false⟩

def demoP2 : Player := ⟨"p2", "bob", "s2", false⟩

def demoGame : GameState :=
  { id := "g1", board := emptyBoard, player1 := demoP1, player2 := some demoP2,
    currentTurn := .player1, status := .active, winner := none,
    createdAt := 0, lastMoveAt := 0,
    disconnectedPlayer := none, disconnectTimer := none }

def demoReg : Registry := [("g1", demoGame)]

/-- A board whose column 0 holds six pieces. -/
def fullColBoard : Board :=
  [[Cell.player1, Cell.empty, Cell.empty, Cell.empty, Cell.empty, Cell.empty, Cell.empty],
   [Cell.player2, Cell.empty, Cell.empty, Cell.empty, Cell.empty, Cell.empty, Cell.empty],
   [Cell.player1, Cell.empty, Cell.empty, Cell.empty, Cell.empty, Cell.empty, Cell.empty],
   [Cell.player2, Cell.empty, Cell.empty, Cell.empty, Cell.empty, Cell.empty, Cell.empty],
   [Cell.player2, Cell.empty, Cell.empty, Cell.empty, Cell.empty, Cell.empty, Cell.empty],
   [Cell.player1, Cell.empty, Cell.empty, Cell.empty, Cell.empty, Cell.empty, Cell.empty]]

def demoFullGame : GameState := { demoGame with board := fullColBoard }

def demoFullReg : Registry := [("g1", demoFullGame)]

/-! ## Claim theorems: `makeMove` -/

/-- C1: for a registered active session, with the caller being the side
whose turn it is and an in-range non-full column, `makeMove` places the
mover's piece at the lowest empty row of the column, stamps
`lastMoveAt`, and then exactly one of: win (completed, winner set to the
mover, win outcome), draw on a full board (completed, winner untouched,
draw outcome), or turn alternation (still active, turn flipped, plain
outcome carrying the placement). -/
theorem makeMove_places_and_branches
    (reg : Registry) (gid pid : String) (column : Int) (now : Nat)
    (g : GameState) (cp : Player) (row : Nat)
    (hg : lookupGame reg gid = some g)
    (hact : g.status = Status.active)
    (hcp : currentPlayerOf g = some cp)
    (hid : cp.id = pid)
    (hc0 : 0 ≤ column) (hc7 : column < (cols : Int))
    (hrow : lowestEmptyRow g.board column = some row) :
    cellAt g.board (row : Int) column = Cell.empty ∧
    (∀ j : Nat, row < j → j < 6 → cellAt g.board (j : Int) column ≠ Cell.empty) ∧
    (∃ g1 : GameState,
      (makeMove reg gid pid column now).2 = storeGame reg gid g1 ∧
      lookupGame (makeMove reg gid pid column now).2 gid = some g1 ∧
      g1.board = updateCell g.board (row : Int) column g.currentTurn.toCell ∧
      g1.lastMoveAt = now ∧
      g1.player1 = g.player1 ∧ g1.player2 = g.player2 ∧
      (if checkWinner (updateCell g.board (row : Int) column g.currentTurn.toCell)
          (row : Int) column then
        (makeMove reg gid pid column now).1
            = MoveResult.success ⟨row, column.toNat⟩ (some cp.id) false ∧
        g1.status = Status.completed ∧ g1.winner = some cp.id ∧
        g1.currentTurn = g.currentTurn
      else if isBoardFull (updateCell g.board (row : Int) column g.currentTurn.toCell) then
        (makeMove reg gid pid column now).1
            = MoveResult.success ⟨row, column.toNat⟩ none true ∧
        g1.status = Status.completed ∧ g1.winner = g.winner ∧
        g1.currentTurn = g.currentTurn
      else
        (makeMove reg gid pid column now).1
            = MoveResult.success ⟨row, column.toNat⟩ none false ∧
        g1.status = Status.active ∧ g1.winner = g.winner ∧
        g1.currentTurn = g.currentTurn.other)) :=
  makeMove_success_core reg gid pid column now g cp row hg hact hcp hid hc0 hc7 hrow

/-- Witness for C1: a concrete registered active session and a move into
column 3, whose placement lands at the bottom row. -/
theorem makeMove_places_and_branches_witness :
    lookupGame demoReg "g1" = some demoGame ∧
    lowestEmptyRow demoGame.board 3 = some 5 ∧
    cellAt demoGame.board ((5 : Nat) : Int) 3 = Cell.empty :=
  ⟨by decide, by decide,
   (makeMove_places_and_branches demoReg "g1" "p1" 3 5 demoGame demoP1 5
      (by decide) (by decide) (by decide) (by decide) (by decide) (by decide)
      (by decide)).1⟩

/-- C2: every failure of `makeMove` (unknown session, inactive session,
wrong caller, out-of-range column, full column — in particular a column
all six of whose cells are occupied) returns the matching error and
leaves the registry untouched, and failed `joinGame` / no-op
`forfeitGame` calls also leave the registry untouched. -/
theorem makeMove_failures_frame
    (reg : Registry) (gid pid : String) (column : Int) (now : Nat) (p2 : Player) :
    (lookupGame reg gid = none →
      makeMove reg gid pid column now = (.failure .gameNotFound, reg)) ∧
    (∀ g, lookupGame reg gid = some g → g.status ≠ Status.active →
      makeMove reg gid pid column now = (.failure .gameNotActive, reg)) ∧
    (∀ g, lookupGame reg gid = some g → g.status = Status.active →
      currentPlayerOf g = none →
      makeMove reg gid pid column now = (.failure .notYourTurn, reg)) ∧
    (∀ g cp, lookupGame reg gid = some g → g.status = Status.active →
      currentPlayerOf g = some cp → cp.id ≠ pid →
      makeMove reg gid pid column now = (.failure .notYourTurn, reg)) ∧
    (∀ g cp, lookupGame reg gid = some g → g.status = Status.active →
      currentPlayerOf g = some cp → cp.id = pid →
      (column < 0 ∨ (cols : Int) ≤ column) →
      makeMove reg gid pid column now = (.failure .invalidColumn, reg)) ∧
    (∀ g cp, lookupGame reg gid = some g → g.status = Status.active →
      currentPlayerOf g = some cp → cp.id = pid →
      0 ≤ column → column < (cols : Int) →
      (∀ j : Nat, j < 6 → cellAt g.board (j : Int) column ≠ Cell.empty) →
      makeMove reg gid pid column now = (.failure .columnFull, reg)) ∧
    ((joinGame reg gid p2).1 = none → (joinGame reg gid p2).2 = reg) ∧
    (lookupGame reg gid = none → forfeitGame reg gid pid = reg) ∧
    (∀ g, lookupGame reg gid = some g → g.status ≠ Status.active →
      forfeitGame reg gid pid = reg) := by
  refine ⟨?_, ?_, ?_, ?_, ?_, ?_, ?_, ?_, ?_⟩
  · intro h
    simp [makeMove, h]
  · intro g hg hns
    simp only [makeMove, hg, if_pos hns]
  · intro g hg hact hnone
    have hnact : ¬ (g.status ≠ Status.active) := by simp [hact]
    simp only [makeMove, hg, if_neg hnact, hnone]
  · intro g cp hg hact hcp hnid
    have hnact : ¬ (g.status ≠ Status.active) := by simp [hact]
    simp only [makeMove, hg, if_neg hnact, hcp, if_pos hnid]
  · intro g cp hg hact hcp hid hcol
    have hnact : ¬ (g.status ≠ Status.active) := by simp [hact]
    have hnid : ¬ (cp.id ≠ pid) := by simp [hid]
    simp only [makeMove, hg, if_neg hnact, hcp, if_neg hnid, if_pos hcol]
  · intro g cp hg hact hcp hid hc0 hc7 hfull
    have hnact : ¬ (g.status ≠ Status.active) := by simp [hact]
    have hnid : ¬ (cp.id ≠ pid) := by simp [hid]
    have hncol : ¬ (column < 0 ∨ (cols : Int) ≤ column) := by
      push_neg
      exact ⟨hc0, hc7⟩
    have hrow : lowestEmptyRow g.board column = none :=
      lowestEmptyRow_eq_none.mpr hfull
    simp only [makeMove, hg, if_neg hnact, hcp, if_neg hnid, if_neg hncol, hrow]
  · intro h
    rcases hg : lookupGame reg gid with _ | g
    · unfold joinGame
      rw [hg]
    · have hred : joinGame reg gid p2
          = if g.player2.isSome = true ∨ g.status ≠ Status.waiting then (none, reg)
            else
              (some { g with player2 := some p2, status := Status.active },
               storeGame reg gid { g with player2 := some p2, status := Status.active }) := by
        unfold joinGame
        rw [hg]
      rw [hred] at h ⊢
      by_cases hcond : g.player2.isSome = true ∨ g.status ≠ Status.waiting
      · rw [if_pos hcond]
      · rw [if_neg hcond] at h
        simp at h
  · intro h
    simp [forfeitGame, h]
  · intro g hg hns
    have : ¬ g.status = Status.active := hns
    simp only [forfeitGame, hg, if_neg this]

/-- Witness for C2: a move against an unknown session id fails with the
not-found error, and a move into a column already holding six pieces
fails with the column-full error; both leave the registry unchanged. -/
theorem makeMove_failures_frame_witness :
    makeMove [] "g1" "p1" 0 0 = (.failure .gameNotFound, []) ∧
    makeMove demoFullReg "g1" "p1" 0 5 = (.failure .columnFull, demoFullReg) :=
  ⟨(makeMove_failures_frame [] "g1" "p1" 0 0 demoP2).1 (by decide),
   (makeMove_failures_frame demoFullReg "g1" "p1" 0 5 demoP2).2.2.2.2.2.1
     demoFullGame demoP1 (by decide) (by decide) (by decide) (by decide)
     (by decide) (by decide) (by decide)⟩

/-- Every `makeMove` call either leaves the registry untouched or has
passed all the validations of the success path. -/
theorem makeMove_cases (reg : Registry) (gid pid : String) (column : Int)
    (now : Nat) :
    (makeMove reg gid pid column now).2 = reg ∨
    ∃ g cp row, lookupGame reg gid = some g ∧ g.status = Status.active ∧
      currentPlayerOf g = some cp ∧ cp.id = pid ∧
      0 ≤ column ∧ column < (cols : Int) ∧
      lowestEmptyRow g.board column = some row := by
  rcases hg : lookupGame reg gid with _ | g
  · left
    simp [makeMove, hg]
  · by_cases hact : g.status = Status.active
    · have hnact : ¬ (g.status ≠ Status.active) := by simp [hact]
      rcases hcp : currentPlayerOf g with _ | cp
      · left
        simp only [makeMove, hg, if_neg hnact, hcp]
      · by_cases hid : cp.id = pid
        · have hnid : ¬ (cp.id ≠ pid) := by simp [hid]
          by_cases hcol : column < 0 ∨ (cols : Int) ≤ column
          · left
            simp only [makeMove, hg, if_neg hnact, hcp, if_neg hnid, if_pos hcol]
          · rcases hrow : lowestEmptyRow g.board column with _ | row
            · left
              simp only [makeMove, hg, if_neg hnact, hcp, if_neg hnid,
                if_neg hcol, hrow]
            · right
              push_neg at hcol
              exact ⟨g, cp, row, rfl, hact, hcp, hid, hcol.1, hcol.2, hrow⟩
        · left
          simp only [makeMove, hg, if_neg hnact, hcp, if_pos hid]
    · left
      simp only [makeMove, hg, if_pos hact]

/-- The winner computed by `forfeitGame`:
`opponent?.id || null` — the opponent's id, with an absent opponent or
an empty-string id degrading to null. -/
def forfeitWinner (g : GameState) (pid : String) : Option String :=
  match (if g.player1.id = pid then g.player2 else some g.player1) with
  | none => none
  | some o => if o.id = "" then none else some o.id

/-- `forfeitGame` on a registered active session stores it back as
`forfeited` with the opponent-derived winner. -/
theorem forfeitGame_active {reg : Registry} {gid pid : String}
    {g0 : GameState} (hg : lookupGame reg gid = some g0)
    (hact : g0.status = Status.active) :
    forfeitGame reg gid pid
      = storeGame reg gid
          { g0 with status := Status.forfeited,
                    winner := forfeitWinner g0 pid } := by
  unfold forfeitGame forfeitWinner
  rw [hg]
  simp only [if_pos hact]

/-! ## Claim theorems: status lifecycle (C6) -/

/-- The forward order on statuses: stay put, `waiting → active`, or
`active → {completed, forfeited}`.  No transition leaves a terminal
status or re-enters `waiting` / `active` from later in the order. -/
def statusForward (s t : Status) : Prop :=
  s = t ∨ (s = Status.waiting ∧ t = Status.active) ∨
  (s = Status.active ∧ (t = Status.completed ∨ t = Status.forfeited))

instance (s t : Status) : Decidable (statusForward s t) := by
  unfold statusForward
  infer_instance

theorem statusForward_refl (s : Status) : statusForward s s := Or.inl rfl

/-- Two lookups of the same id in the same registry agree. -/
theorem statusForward_of_same {reg : Registry} {id : String} {g g' : GameState}
    (hpre : lookupGame reg id = some g)
    (hpost : lookupGame reg id = some g') :
    statusForward g.status g'.status := by
  rw [hpre] at hpost
  injection hpost with h
  rw [h]
  exact statusForward_refl _

/-- C6: each registry operation only moves a session's status forward
along `waiting → active → {completed, forfeited}` — for every session id
present before and after the call, the old and new statuses are related
by `statusForward`, so no session leaves a terminal status or returns to
`waiting` / `active`.  For `createGame` the fresh id is assumed unused,
matching the uuid draw in the source. -/
theorem status_only_moves_forward
    (reg : Registry) (gid ngid pid : String) (p1 p2 : Player) (column : Int)
    (now : Nat) :
    (lookupGame reg ngid = none →
      ∀ id g g', lookupGame reg id = some g →
        lookupGame (createGame reg ngid p1 now).2 id = some g' →
        statusForward g.status g'.status) ∧
    (∀ id g g', lookupGame reg id = some g →
      lookupGame (joinGame reg gid p2).2 id = some g' →
      statusForward g.status g'.status) ∧
    (∀ id g g', lookupGame reg id = some g →
      lookupGame (makeMove reg gid pid column now).2 id = some g' →
      statusForward g.status g'.status) ∧
    (∀ id g g', lookupGame reg id = some g →
      lookupGame (forfeitGame reg gid pid) id = some g' →
      statusForward g.status g'.status) ∧
    (∀ id g g', lookupGame reg id = some g →
      lookupGame (setDisconnected reg gid pid) id = some g' →
      statusForward g.status g'.status) ∧
    (∀ id g g', lookupGame reg id = some g →
      lookupGame (clearDisconnected reg gid) id = some g' →
      statusForward g.status g'.status) := by
  refine ⟨?_, ?_, ?_, ?_, ?_, ?_⟩
  · intro hfresh id g g' hpre hpost
    have h2 : (createGame reg ngid p1 now).2 = storeGame reg ngid
        { id := ngid, board := emptyBoard, player1 := p1, player2 := none,
          currentTurn := .player1, status := .waiting, winner := none,
          createdAt := now, lastMoveAt := now,
          disconnectedPlayer := none, disconnectTimer := none } := rfl
    rw [h2] at hpost
    rcases lookupGame_store_cases hpost with ⟨heq, rfl⟩ | ⟨hne, hsame⟩
    · subst heq
      rw [hfresh] at hpre
      cases hpre
    · exact statusForward_of_same hpre hsame
  · intro id g g' hpre hpost
    rcases hg : lookupGame reg gid with _ | g0
    · have hj : joinGame reg gid p2 = (none, reg) := by
        unfold joinGame
        rw [hg]
      rw [hj] at hpost
      exact statusForward_of_same hpre hpost
    · by_cases hcond : g0.player2.isSome = true ∨ g0.status ≠ Status.waiting
      · have hj : joinGame reg gid p2 = (none, reg) := by
          unfold joinGame
          rw [hg]
          simp only [if_pos hcond]
        rw [hj] at hpost
        exact statusForward_of_same hpre hpost
      · have hj : joinGame reg gid p2
            = (some { g0 with player2 := some p2, status := Status.active },
               storeGame reg gid
                 { g0 with player2 := some p2, status := Status.active }) := by
          unfold joinGame
          rw [hg]
          simp only [if_neg hcond]
        rw [hj] at hpost
        rcases lookupGame_store_cases hpost with ⟨heq, rfl⟩ | ⟨hne, hsame⟩
        · subst heq
          rw [hpre] at hg
          injection hg with h
          push_neg at hcond
          exact Or.inr (Or.inl ⟨by rw [h]; exact hcond.2, rfl⟩)
        · exact statusForward_of_same hpre hsame
  · intro id g g' hpre hpost
    rcases makeMove_cases reg gid pid column now with hsame
      | ⟨g0, cp, row, hg0, hact, hcp, hid0, hc0, hc7, hrow⟩
    · rw [hsame] at hpost
      exact statusForward_of_same hpre hpost
    · obtain ⟨-, -, g1, hstore, hlook1, -, -, -, -, hbr⟩ :=
        makeMove_success_core reg gid pid column now g0 cp row hg0 hact hcp
          hid0 hc0 hc7 hrow
      rw [hstore] at hpost
      rcases lookupGame_store_cases hpost with ⟨heq, heqg⟩ | ⟨hne, hsame⟩
      · subst heq
        rw [hpre] at hg0
        injection hg0 with h
        have hst : g1.status = Status.completed ∨ g1.status = Status.active := by
          split_ifs at hbr
          · exact Or.inl hbr.2.1
          · exact Or.inl hbr.2.1
          · exact Or.inr hbr.2.1
        rw [heqg]
        rcases hst with hst | hst
        · exact Or.inr (Or.inr ⟨by rw [h]; exact hact, Or.inl hst⟩)
        · left
          rw [h, hact, hst]
      · exact statusForward_of_same hpre hsame
  · intro id g g' hpre hpost
    rcases hg : lookupGame reg gid with _ | g0
    · have hf : forfeitGame reg gid pid = reg := by
        unfold forfeitGame
        rw [hg]
      rw [hf] at hpost
      exact statusForward_of_same hpre hpost
    · by_cases hact : g0.status = Status.active
      · have hf := @forfeitGame_active reg gid pid g0 hg hact
        rw [hf] at hpost
        rcases lookupGame_store_cases hpost with ⟨heq, rfl⟩ | ⟨hne, hsame⟩
        · subst heq
          rw [hpre] at hg
          injection hg with h
          exact Or.inr (Or.inr ⟨by rw [h]; exact hact, Or.inr rfl⟩)
        · exact statusForward_of_same hpre hsame
      · have hf : forfeitGame reg gid pid = reg := by
          unfold forfeitGame
          rw [hg]
          simp only [if_neg hact]
        rw [hf] at hpost
        exact statusForward_of_same hpre hpost
  · intro id g g' hpre hpost
    rcases hg : lookupGame reg gid with _ | g0
    · have hf : setDisconnected reg gid pid = reg := by
        unfold setDisconnected
        rw [hg]
      rw [hf] at hpost
      exact statusForward_of_same hpre hpost
    · have hf : setDisconnected reg gid pid
          = storeGame reg gid { g0 with disconnectedPlayer := some pid } := by
        unfold setDisconnected
        rw [hg]
      rw [hf] at hpost
      rcases lookupGame_store_cases hpost with ⟨heq, rfl⟩ | ⟨hne, hsame⟩
      · subst heq
        rw [hpre] at hg
        injection hg with h
        left
        rw [h]
      · exact statusForward_of_same hpre hsame
  · intro id g g' hpre hpost
    rcases hg : lookupGame reg gid with _ | g0
    · have hf : clearDisconnected reg gid = reg := by
        unfold clearDisconnected
        rw [hg]
      rw [hf] at hpost
      exact statusForward_of_same hpre hpost
    · have hf : clearDisconnected reg gid
          = storeGame reg gid
              { g0 with disconnectedPlayer := none, disconnectTimer := none } := by
        unfold clearDisconnected
        rw [hg]
      rw [hf] at hpost
      rcases lookupGame_store_cases hpost with ⟨heq, rfl⟩ | ⟨hne, hsame⟩
      · subst heq
        rw [hpre] at hg
        injection hg with h
        left
        rw [h]
      · exact statusForward_of_same hpre hsame

/-- The forfeited demo session. -/
def demoForfGame : GameState :=
  { demoGame with status := Status.forfeited, winner := some "p2" }

/-- Witness for C6: forfeiting the active demo session moves its status
forward from `active` to `forfeited`. -/
theorem status_only_moves_forward_witness :
    statusForward demoGame.status demoForfGame.status :=
  (status_only_moves_forward demoReg "g1" "gX" "p1" demoP1 demoP2 0 0).2.2.2.1
    "g1" demoGame demoForfGame (by decide) (by decide)

/-! ## Claim theorems: the winner invariant (C7) -/

/-- The winner discipline of a session: `waiting` and `active` sessions
have no winner; a `completed` session either has no winner and a full
board (a draw), or its winner is the id of the side whose turn it still
is — the mover — and the board holds a four-in-a-row of that side's
piece at some in-range cell. -/
def winnerInv (g : GameState) : Prop :=
  (g.status = Status.waiting → g.winner = none) ∧
  (g.status = Status.active → g.winner = none) ∧
  (g.status = Status.completed →
    (g.winner = none → isBoardFull g.board = true) ∧
    (∀ w, g.winner = some w →
      ∃ cp, currentPlayerOf g = some cp ∧ w = cp.id ∧
        ∃ r c : Int, inBoundsI r c ∧ checkWinner g.board r c = true ∧
          cellAt g.board r c = g.currentTurn.toCell))

theorem winnerInv_of_same {reg : Registry} {id : String} {g g' : GameState}
    (hpre : lookupGame reg id = some g) (hinv : winnerInv g)
    (hpost : lookupGame reg id = some g') : winnerInv g' := by
  rw [hpre] at hpost
  injection hpost with h
  rw [← h]
  exact hinv

/-- C7: winners arise only from a four-in-a-row completion (winner = the
mover) or a forfeiture (winner = the opponent of the forfeiting
participant): `winnerInv` holds for fresh sessions and is preserved by
every registry operation, draws leave the winner null, and the forfeit
transition sets the winner to the opponent's id. -/
theorem winner_only_for_completed_or_forfeited
    (reg : Registry) (gid ngid pid : String) (p1 p2 : Player) (column : Int)
    (now : Nat) :
    winnerInv (createGame reg ngid p1 now).1 ∧
    (∀ id g g', lookupGame reg id = some g → winnerInv g →
      lookupGame (createGame reg ngid p1 now).2 id = some g' →
      lookupGame reg ngid = none → winnerInv g') ∧
    (∀ id g g', lookupGame reg id = some g → winnerInv g →
      lookupGame (joinGame reg gid p2).2 id = some g' → winnerInv g') ∧
    (∀ id g g', lookupGame reg id = some g → winnerInv g →
      lookupGame (makeMove reg gid pid column now).2 id = some g' →
      winnerInv g') ∧
    (∀ id g g', lookupGame reg id = some g → winnerInv g →
      lookupGame (forfeitGame reg gid pid) id = some g' → winnerInv g') ∧
    (∀ id g g', lookupGame reg id = some g → winnerInv g →
      lookupGame (setDisconnected reg gid pid) id = some g' → winnerInv g') ∧
    (∀ id g g', lookupGame reg id = some g → winnerInv g →
      lookupGame (clearDisconnected reg gid) id = some g' → winnerInv g') ∧
    (∀ g o, lookupGame reg gid = some g → g.status = Status.active →
      (if g.player1.id = pid then g.player2 else some g.player1) = some o →
      o.id ≠ "" →
      lookupGame (forfeitGame reg gid pid) gid
        = some { g with status := Status.forfeited, winner := some o.id }) := by
  refine ⟨?_, ?_, ?_, ?_, ?_, ?_, ?_, ?_⟩
  · refine ⟨fun _ => rfl, ?_, ?_⟩
    · intro h
      simp [createGame] at h
    · intro h
      simp [createGame] at h
  · intro id g g' hpre hinv hpost hfresh
    have h2 : (createGame reg ngid p1 now).2 = storeGame reg ngid
        { id := ngid, board := emptyBoard, player1 := p1, player2 := none,
          currentTurn := .player1, status := .waiting, winner := none,
          createdAt := now, lastMoveAt := now,
          disconnectedPlayer := none, disconnectTimer := none } := rfl
    rw [h2] at hpost
    rcases lookupGame_store_cases hpost with ⟨heq, heqg⟩ | ⟨hne, hsame⟩
    · subst heq
      rw [hfresh] at hpre
      cases hpre
    · exact winnerInv_of_same hpre hinv hsame
  · intro id g g' hpre hinv hpost
    rcases hg : lookupGame reg gid with _ | g0
    · have hj : joinGame reg gid p2 = (none, reg) := by
        unfold joinGame
        rw [hg]
      rw [hj] at hpost
      exact winnerInv_of_same hpre hinv hpost
    · by_cases hcond : g0.player2.isSome = true ∨ g0.status ≠ Status.waiting
      · have hj : joinGame reg gid p2 = (none, reg) := by
          unfold joinGame
          rw [hg]
          simp only [if_pos hcond]
        rw [hj] at hpost
        exact winnerInv_of_same hpre hinv hpost
      · have hj : joinGame reg gid p2
            = (some { g0 with player2 := some p2, status := Status.active },
               storeGame reg gid
                 { g0 with player2 := some p2, status := Status.active }) := by
          unfold joinGame
          rw [hg]
          simp only [if_neg hcond]
        rw [hj] at hpost
        rcases lookupGame_store_cases hpost with ⟨heq, heqg⟩ | ⟨hne, hsame⟩
        · subst heq
          rw [hpre] at hg
          injection hg with h
          rw [h] at hinv
          push_neg at hcond
          rw [heqg]
          refine ⟨?_, ?_, ?_⟩
          · intro hh
            simp at hh
          · intro _
            exact hinv.1 hcond.2
          · intro hh
            simp at hh
        · exact winnerInv_of_same hpre hinv hsame
  · intro id g g' hpre hinv hpost
    rcases makeMove_cases reg gid pid column now with hsame
      | ⟨g0, cp, row, hg0, hact, hcp, hid0, hc0, hc7, hrow⟩
    · rw [hsame] at hpost
      exact winnerInv_of_same hpre hinv hpost
    · obtain ⟨hemp, -, g1, hstore, hlook, hboard, hlast, hp1f, hp2f, hbr⟩ :=
        makeMove_success_core reg gid pid column now g0 cp row hg0 hact hcp
          hid0 hc0 hc7 hrow
      obtain ⟨hrowlt, -, -⟩ := lowestEmptyRow_eq_some.mp hrow
      rw [hstore] at hpost
      rcases lookupGame_store_cases hpost with ⟨heq, heqg⟩ | ⟨hne, hsame⟩
      · subst heq
        rw [hpre] at hg0
        injection hg0 with h
        rw [h] at hinv
        rw [heqg]
        split_ifs at hbr with hwin hfull
        · obtain ⟨hres, hstat, hwinr, hturn⟩ := hbr
          refine ⟨?_, ?_, ?_⟩
          · intro hh
            rw [hstat] at hh
            cases hh
          · intro hh
            rw [hstat] at hh
            cases hh
          · intro _
            refine ⟨?_, ?_⟩
            · intro hh
              rw [hwinr] at hh
              cases hh
            · intro w hw
              rw [hwinr] at hw
              injection hw with hw
              have hcpOf : currentPlayerOf g1 = some cp := by
                unfold currentPlayerOf
                rw [hturn, hp1f, hp2f]
                unfold currentPlayerOf at hcp
                exact hcp
              refine ⟨cp, hcpOf, hw.symm, (row : Int), column, ?_, ?_, ?_⟩
              · unfold inBoundsI
                rw [rows_eq, cols_eq]
                simp only [cols_eq] at hc7
                push_cast at hc7 ⊢
                omega
              · rw [hboard]
                exact hwin
              · rw [hboard, hturn]
                rcases cellAt_updateCell_self_or g0.board (row : Int) column
                    g0.currentTurn.toCell with hcc | hcc
                · exact hcc
                · exfalso
                  have hfw : checkWinner
                      (updateCell g0.board (row : Int) column g0.currentTurn.toCell)
                      (row : Int) column = false := by
                    simp [checkWinner, hcc, hemp]
                  rw [hfw] at hwin
                  cases hwin
        · obtain ⟨hres, hstat, hwinr, hturn⟩ := hbr
          have hwnone : g0.winner = none := hinv.2.1 hact
          refine ⟨?_, ?_, ?_⟩
          · intro hh
            rw [hstat] at hh
            cases hh
          · intro hh
            rw [hstat] at hh
            cases hh
          · intro _
            refine ⟨?_, ?_⟩
            · intro _
              rw [hboard]
              exact hfull
            · intro w hw
              rw [hwinr, hwnone] at hw
              cases hw
        · obtain ⟨hres, hstat, hwinr, hturn⟩ := hbr
          refine ⟨?_, ?_, ?_⟩
          · intro hh
            rw [hstat] at hh
            cases hh
          · intro _
            rw [hwinr]
            exact hinv.2.1 hact
          · intro hh
            rw [hstat] at hh
            cases hh
      · exact winnerInv_of_same hpre hinv hsame
  · intro id g g' hpre hinv hpost
    rcases hg : lookupGame reg gid with _ | g0
    · have hf : forfeitGame reg gid pid = reg := by
        unfold forfeitGame
        rw [hg]
      rw [hf] at hpost
      exact winnerInv_of_same hpre hinv hpost
    · by_cases hact : g0.status = Status.active
      · have hf := @forfeitGame_active reg gid pid g0 hg hact
        rw [hf] at hpost
        rcases lookupGame_store_cases hpost with ⟨heq, heqg⟩ | ⟨hne, hsame⟩
        · rw [heqg]
          refine ⟨?_, ?_, ?_⟩
          · intro hh
            simp at hh
          · intro hh
            simp at hh
          · intro hh
            simp at hh
        · exact winnerInv_of_same hpre hinv hsame
      · have hf : forfeitGame reg gid pid = reg := by
          unfold forfeitGame
          rw [hg]
          simp only [if_neg hact]
        rw [hf] at hpost
        exact winnerInv_of_same hpre hinv hpost
  · intro id g g' hpre hinv hpost
    rcases hg : lookupGame reg gid with _ | g0
    · have hf : setDisconnected reg gid pid = reg := by
        unfold setDisconnected
        rw [hg]
      rw [hf] at hpost
      exact winnerInv_of_same hpre hinv hpost
    · have hf : setDisconnected reg gid pid
          = storeGame reg gid { g0 with disconnectedPlayer := some pid } := by
        unfold setDisconnected
        rw [hg]
      rw [hf] at hpost
      rcases lookupGame_store_cases hpost with ⟨heq, heqg⟩ | ⟨hne, hsame⟩
      · subst heq
        rw [hpre] at hg
        injection hg with h
        rw [h] at hinv
        rw [heqg]
        exact hinv
      · exact winnerInv_of_same hpre hinv hsame
  · intro id g g' hpre hinv hpost
    rcases hg : lookupGame reg gid with _ | g0
    · have hf : clearDisconnected reg gid = reg := by
        unfold clearDisconnected
        rw [hg]
      rw [hf] at hpost
      exact winnerInv_of_same hpre hinv hpost
    · have hf : clearDisconnected reg gid
          = storeGame reg gid
              { g0 with disconnectedPlayer := none, disconnectTimer := none } := by
        unfold clearDisconnected
        rw [hg]
      rw [hf] at hpost
      rcases lookupGame_store_cases hpost with ⟨heq, heqg⟩ | ⟨hne, hsame⟩
      · subst heq
        rw [hpre] at hg
        injection hg with h
        rw [h] at hinv
        rw [heqg]
        exact hinv
      · exact winnerInv_of_same hpre hinv hsame
  · intro g o hg hact hopp ho
    have hw : forfeitWinner g pid = some o.id := by
      unfold forfeitWinner
      rw [hopp]
      simp only [if_neg ho]
    rw [@forfeitGame_active reg gid pid g hg hact, hw]
    unfold lookupGame storeGame
    exact assocGet_set_self reg gid _

/-- Witness for C7: forfeiting the active demo session by `p1` yields a
forfeited session whose winner is the opponent `p2`. -/
theorem winner_only_for_completed_or_forfeited_witness :
    lookupGame (forfeitGame demoReg "g1" "p1") "g1" = some demoForfGame :=
  (winner_only_for_completed_or_forfeited demoReg "g1" "gX" "p1" demoP1 demoP2
      0 0).2.2.2.2.2.2.2 demoGame demoP2 (by decide) (by decide) (by decide)
    (by decide)

/-! ## Claim theorems: the make-move handler (C9) -/

/-- `handleMakeMove` in terms of the resolved player's `makeMove` call. -/
theorem handleMakeMove_eq (reg : Registry) (sock gid : String) (column : Int)
    (now : Nat) (g : GameState) (p : Player)
    (hg : lookupGame reg gid = some g)
    (hres : resolveMovePlayer g sock = some p) :
    handleMakeMove reg sock gid column now
      = (match (makeMove reg gid p.id column now).1 with
         | .failure e => (HandlerResult.errMove e, (makeMove reg gid p.id column now).2)
         | .success pos w d =>
             (HandlerResult.moveOk pos w d, (makeMove reg gid p.id column now).2)) := by
  rcases hm : makeMove reg gid p.id column now with ⟨res, reg1⟩
  simp only [handleMakeMove, hg, hres, hm]
  cases res
  · rfl
  · rfl

/-- C9: the handler resolves the caller against `player1`'s connection
handle only — on a session with a second player, any connection other
than `player1`'s is attributed to `player2` and the move is applied with
`player2`'s identity; such a foreign connection is not rejected, and its
move succeeds whenever it is `player2`'s turn and the column is a legal
drop. -/
theorem handleMakeMove_attributes_player2
    (reg : Registry) (sock gid : String) (column : Int) (now : Nat)
    (g : GameState) (p2 : Player)
    (hg : lookupGame reg gid = some g)
    (hp2 : g.player2 = some p2)
    (hsock : sock ≠ g.player1.socketId) :
    resolveMovePlayer g sock = some p2 ∧
    handleMakeMove reg sock gid column now
      = (match (makeMove reg gid p2.id column now).1 with
         | .failure e => (HandlerResult.errMove e, (makeMove reg gid p2.id column now).2)
         | .success pos w d =>
             (HandlerResult.moveOk pos w d, (makeMove reg gid p2.id column now).2)) ∧
    (g.status = Status.active → g.currentTurn = Turn.player2 →
      0 ≤ column → column < (cols : Int) →
      ∀ row, lowestEmptyRow g.board column = some row →
      ∃ w d reg1, handleMakeMove reg sock gid column now
        = (HandlerResult.moveOk ⟨row, column.toNat⟩ w d, reg1)) := by
  have hres : resolveMovePlayer g sock = some p2 := by
    unfold resolveMovePlayer
    rw [if_neg (Ne.symm hsock)]
    exact hp2
  refine ⟨hres, handleMakeMove_eq reg sock gid column now g p2 hg hres, ?_⟩
  intro hact hturn hcc0 hcc7 row hrow
  have hcp : currentPlayerOf g = some p2 := by
    unfold currentPlayerOf
    rw [hturn]
    exact hp2
  obtain ⟨-, -, g1, -, -, -, -, -, -, hbr⟩ :=
    makeMove_success_core reg gid p2.id column now g p2 row hg hact hcp rfl
      hcc0 hcc7 hrow
  have hsucc : ∃ w d, (makeMove reg gid p2.id column now).1
      = MoveResult.success ⟨row, column.toNat⟩ w d := by
    split_ifs at hbr
    · exact ⟨some p2.id, false, hbr.1⟩
    · exact ⟨none, true, hbr.1⟩
    · exact ⟨none, false, hbr.1⟩
  obtain ⟨w, d, hsucc⟩ := hsucc
  refine ⟨w, d, (makeMove reg gid p2.id column now).2, ?_⟩
  rw [handleMakeMove_eq reg sock gid column now g p2 hg hres]
  rw [hsucc]

/-- Witness for C9: on the demo session a connection handle belonging to
neither participant is attributed to `player2`. -/
theorem handleMakeMove_attributes_player2_witness :
    resolveMovePlayer demoGame "intruder-socket" = some demoP2 :=
  (handleMakeMove_attributes_player2 demoReg "intruder-socket" "g1" 3 5
      demoGame demoP2 (by decide) (by decide) (by decide)).1

/-! ## Claim theorems: the decision heuristic (C4, C10) -/

/-- A legal drop: an in-range column whose top cell is empty. -/
def isLegal (b : Board) (col : Nat) : Prop :=
  col < cols ∧ cellAt b 0 (col : Int) = Cell.empty

instance (b : Board) (col : Nat) : Decidable (isLegal b col) := by
  unfold isLegal
  infer_instance

/-- Dropping into `col` immediately yields a four-in-a-row through the
placed cell (the spec's "placement immediately wins"). -/
def winsAfterDrop (b : Board) (col : Nat) (piece : Cell) : Prop :=
  ∃ row, lowestEmptyRow b (col : Int) = some row ∧
    runSomeAxis (updateCell b (row : Int) (col : Int) piece)
      (row : Int) (col : Int) 4

/-- Dropping into `col` yields a run of at least three through the
placed cell along some axis (the spec's "build" tier). -/
def buildsThreeAfterDrop (b : Board) (col : Nat) (piece : Cell) : Prop :=
  ∃ row, lowestEmptyRow b (col : Int) = some row ∧
    runSomeAxis (updateCell b (row : Int) (col : Int) piece)
      (row : Int) (col : Int) 3

/-- `col` is the first (lowest-index) column satisfying `P`. -/
def firstSat (P : Nat → Prop) (col : Nat) : Prop :=
  P col ∧ ∀ j, j < col → ¬ P j

/-- The spec's five-tier priority cascade: `col` is the column the
cascade selects — the first winning column, else the first blocking
column, else the first building column, else the middle column if legal,
else the legal column closest to the middle with ties to the lower
index. -/
def cascadeSelects (b : Board) (side : Turn) (col : Nat) : Prop :=
  firstSat (fun j => isLegal b j ∧ winsAfterDrop b j side.toCell) col ∨
  ((∀ j, ¬ (isLegal b j ∧ winsAfterDrop b j side.toCell)) ∧
    firstSat (fun j => isLegal b j ∧ winsAfterDrop b j side.other.toCell) col) ∨
  ((∀ j, ¬ (isLegal b j ∧ winsAfterDrop b j side.toCell)) ∧
   (∀ j, ¬ (isLegal b j ∧ winsAfterDrop b j side.other.toCell)) ∧
    firstSat (fun j => isLegal b j ∧ buildsThreeAfterDrop b j side.toCell) col) ∨
  ((∀ j, ¬ (isLegal b j ∧ winsAfterDrop b j side.toCell)) ∧
   (∀ j, ¬ (isLegal b j ∧ winsAfterDrop b j side.other.toCell)) ∧
   (∀ j, ¬ (isLegal b j ∧ buildsThreeAfterDrop b j side.toCell)) ∧
    isLegal b centerCol ∧ col = centerCol) ∨
  ((∀ j, ¬ (isLegal b j ∧ winsAfterDrop b j side.toCell)) ∧
   (∀ j, ¬ (isLegal b j ∧ winsAfterDrop b j side.other.toCell)) ∧
   (∀ j, ¬ (isLegal b j ∧ buildsThreeAfterDrop b j side.toCell)) ∧
    ¬ isLegal b centerCol ∧ isLegal b col ∧
    ∀ d, isLegal b d → centerDist col < centerDist d ∨
      (centerDist col = centerDist d ∧ col ≤ d))

/-- The chosen column of `getBestMove`, written without the board
threading (which `getBestMove_board` shows is the identity). -/
def bestMoveFst (b : Board) (side : Turn) : Option Nat :=
  match (List.range cols).find? (fun col => canPlacePiece b col &&
      (wouldWin b (getLowestEmptyRow b col) col side.toCell).1) with
  | some c => some c
  | none =>
    match (List.range cols).find? (fun col => canPlacePiece b col &&
        (wouldWin b (getLowestEmptyRow b col) col side.other.toCell).1) with
    | some c => some c
    | none =>
      match (List.range cols).find? (fun col => canPlacePiece b col &&
          (createsThreeInRow b (getLowestEmptyRow b col) col side.toCell).1) with
      | some c => some c
      | none =>
        if canPlacePiece b centerCol then some centerCol
        else (sortByCenter (getValidMoves b)).head?

theorem getBestMove_fst (b : Board) (side : Turn) :
    (getBestMove b side).1 = bestMoveFst b side := by
  simp only [getBestMove, bestMoveFst]
  rw [findWinColumn_eq]
  rcases h1 : (List.range cols).find? (fun col => canPlacePiece b col &&
      (wouldWin b (getLowestEmptyRow b col) col side.toCell).1) with _ | c1
  · simp only [h1]
    rw [findWinColumn_eq]
    rcases h2 : (List.range cols).find? (fun col => canPlacePiece b col &&
        (wouldWin b (getLowestEmptyRow b col) col side.other.toCell).1) with _ | c2
    · simp only [h2]
      rw [findThreeColumn_eq]
      rcases h3 : (List.range cols).find? (fun col => canPlacePiece b col &&
          (createsThreeInRow b (getLowestEmptyRow b col) col side.toCell).1) with _ | c3
      · simp only [h3]
        split <;> rfl
      · simp [h3]
    · simp [h2]
  · simp [h1]

theorem mem_getValidMoves {b : Board} {col : Nat} :
    col ∈ getValidMoves b ↔ col < 7 ∧ canPlacePiece b col = true := by
  unfold getValidMoves
  rw [List.mem_filter, List.mem_range, cols_eq]

theorem mem_insertByCenter {x y : Nat} : ∀ {l : List Nat},
    x ∈ insertByCenter y l ↔ x = y ∨ x ∈ l := by
  intro l
  induction l with
  | nil => simp [insertByCenter]
  | cons z zs ih =>
    unfold insertByCenter
    split
    · simp
    · simp only [List.mem_cons, ih]
      tauto

theorem mem_sortByCenter {x : Nat} : ∀ {l : List Nat},
    x ∈ sortByCenter l ↔ x ∈ l := by
  intro l
  induction l with
  | nil => simp [sortByCenter]
  | cons z zs ih =>
    unfold sortByCenter at ih ⊢
    simp only [List.foldr_cons, mem_insertByCenter, List.mem_cons, ih]

theorem length_insertByCenter (y : Nat) : ∀ (l : List Nat),
    (insertByCenter y l).length = l.length + 1 := by
  intro l
  induction l with
  | nil => rfl
  | cons z zs ih =>
    unfold insertByCenter
    split
    · simp
    · simp [ih]

theorem length_sortByCenter : ∀ (l : List Nat),
    (sortByCenter l).length = l.length := by
  intro l
  induction l with
  | nil => rfl
  | cons z zs ih =>
    unfold sortByCenter at ih ⊢
    simp only [List.foldr_cons, length_insertByCenter, ih, List.length_cons]

/-- A legal column guarantees the drop-row scan succeeds. -/
theorem lowestEmptyRow_of_canPlace {b : Board} {col : Nat}
    (hcp : canPlacePiece b col = true) :
    ∃ row, lowestEmptyRow b (col : Int) = some row := by
  rcases hrow : lowestEmptyRow b (col : Int) with _ | row
  · have h0 := lowestEmptyRow_eq_none.mp hrow 0 (by omega)
    unfold canPlacePiece at hcp
    rw [decide_eq_true_eq] at hcp
    exact absurd (by exact_mod_cast hcp) h0
  · exact ⟨row, rfl⟩

/-- The four axis counts reach `k` iff a `k`-run through the cell exists
on some axis. -/
theorem counts_iff_runSomeAxis (b1 : Board) (r c : Int) (k : Nat)
    (hb : inBoundsI r c) (piece : Cell) (hcell : cellAt b1 r c = piece) :
    (k ≤ countInDirection b1 r c 0 1 piece ∨
     k ≤ countInDirection b1 r c 1 0 piece ∨
     k ≤ countInDirection b1 r c 1 1 piece ∨
     k ≤ countInDirection b1 r c 1 (-1) piece) ↔ runSomeAxis b1 r c k := by
  subst hcell
  unfold runSomeAxis
  rw [count_ge_iff_pieceRunGe b1 r c 0 1 k hb (by omega),
      count_ge_iff_pieceRunGe b1 r c 1 0 k hb (by omega),
      count_ge_iff_pieceRunGe b1 r c 1 1 k hb (by omega),
      count_ge_iff_pieceRunGe b1 r c 1 (-1) k hb (by omega)]

/-- The boolean `wouldWin` check agrees with the spec-side "the drop
immediately wins" predicate on legal columns of a 6 by 7 grid. -/
theorem wouldWin_fst_iff (b : Board) (col : Nat) (piece : Cell)
    (hgrid : isGrid b) (hcol : col < 7) (hcp : canPlacePiece b col = true) :
    ((wouldWin b (getLowestEmptyRow b col) col piece).1 = true ↔
      winsAfterDrop b col piece) := by
  obtain ⟨row, hrow⟩ := lowestEmptyRow_of_canPlace hcp
  obtain ⟨hrl, -, -⟩ := lowestEmptyRow_eq_some.mp hrow
  have hglr : getLowestEmptyRow b col = (row : Int) := by
    unfold getLowestEmptyRow
    rw [hrow]
  have hbin : inBoundsI (row : Int) (col : Int) := by
    unfold inBoundsI
    rw [rows_eq, cols_eq]
    push_cast
    omega
  have hcell : cellAt (updateCell b (row : Int) (col : Int) piece)
      (row : Int) (col : Int) = piece :=
    cellAt_updateCell_grid hgrid.1 hgrid.2 piece hbin
  have hdirs : (wouldWin b (getLowestEmptyRow b col) col piece).1 = true ↔
      (4 ≤ countInDirection (updateCell b (row : Int) (col : Int) piece)
          (row : Int) (col : Int) 0 1 piece ∨
       4 ≤ countInDirection (updateCell b (row : Int) (col : Int) piece)
          (row : Int) (col : Int) 1 0 piece ∨
       4 ≤ countInDirection (updateCell b (row : Int) (col : Int) piece)
          (row : Int) (col : Int) 1 1 piece ∨
       4 ≤ countInDirection (updateCell b (row : Int) (col : Int) piece)
          (row : Int) (col : Int) 1 (-1) piece) := by
    rw [hglr]
    unfold wouldWin checkDirection
    simp only [Bool.or_eq_true, decide_eq_true_eq, or_assoc]
  rw [hdirs,
    counts_iff_runSomeAxis (updateCell b (row : Int) (col : Int) piece)
      (row : Int) (col : Int) 4 hbin piece hcell]
  constructor
  · intro h
    exact ⟨row, hrow, h⟩
  · rintro ⟨row', hrow', h⟩
    rw [hrow] at hrow'
    injection hrow' with he
    rw [← he] at h
    exact h

/-- The boolean `createsThreeInRow` check agrees with the spec-side
"the drop builds a run of three" predicate on legal columns. -/
theorem createsThree_fst_iff (b : Board) (col : Nat) (piece : Cell)
    (hgrid : isGrid b) (hcol : col < 7) (hcp : canPlacePiece b col = true) :
    ((createsThreeInRow b (getLowestEmptyRow b col) col piece).1 = true ↔
      buildsThreeAfterDrop b col piece) := by
  obtain ⟨row, hrow⟩ := lowestEmptyRow_of_canPlace hcp
  obtain ⟨hrl, -, -⟩ := lowestEmptyRow_eq_some.mp hrow
  have hglr : getLowestEmptyRow b col = (row : Int) := by
    unfold getLowestEmptyRow
    rw [hrow]
  have hbin : inBoundsI (row : Int) (col : Int) := by
    unfold inBoundsI
    rw [rows_eq, cols_eq]
    push_cast
    omega
  have hcell : cellAt (updateCell b (row : Int) (col : Int) piece)
      (row : Int) (col : Int) = piece :=
    cellAt_updateCell_grid hgrid.1 hgrid.2 piece hbin
  have hdirs : (createsThreeInRow b (getLowestEmptyRow b col) col piece).1 = true ↔
      (3 ≤ countInDirection (updateCell b (row : Int) (col : Int) piece)
          (row : Int) (col : Int) 0 1 piece ∨
       3 ≤ countInDirection (updateCell b (row : Int) (col : Int) piece)
          (row : Int) (col : Int) 1 0 piece ∨
       3 ≤ countInDirection (updateCell b (row : Int) (col : Int) piece)
          (row : Int) (col : Int) 1 1 piece ∨
       3 ≤ countInDirection (updateCell b (row : Int) (col : Int) piece)
          (row : Int) (col : Int) 1 (-1) piece) := by
    rw [hglr]
    unfold createsThreeInRow
    simp only [Bool.or_eq_true, decide_eq_true_eq, or_assoc]
  rw [hdirs,
    counts_iff_runSomeAxis (updateCell b (row : Int) (col : Int) piece)
      (row : Int) (col : Int) 3 hbin piece hcell]
  constructor
  · intro h
    exact ⟨row, hrow, h⟩
  · rintro ⟨row', hrow', h⟩
    rw [hrow] at hrow'
    injection hrow' with he
    rw [← he] at h
    exact h

/-- `find?` over the column range, against a spec-side predicate that
agrees pointwise below 7 and implies the bound. -/
theorem find?_range7_eq_some_iff {p : Nat → Bool} {P : Nat → Prop}
    (hpt : ∀ j, j < 7 → (p j = true ↔ P j)) (hbound : ∀ j, P j → j < 7)
    (c : Nat) :
    ((List.range 7).find? p = some c ↔ firstSat P c) := by
  rw [find?_range_eq_some]
  constructor
  · rintro ⟨hc7, hpc, hall⟩
    refine ⟨(hpt c hc7).mp hpc, ?_⟩
    intro j hj hPj
    have hj7 : j < 7 := hbound j hPj
    have hfalse := hall j hj
    rw [(hpt j hj7).mpr hPj] at hfalse
    cases hfalse
  · rintro ⟨hPc, hmin⟩
    have hc7 := hbound c hPc
    refine ⟨hc7, (hpt c hc7).mpr hPc, ?_⟩
    intro j hj
    have hj7 : j < 7 := by omega
    cases hpj : p j
    · rfl
    · exact absurd ((hpt j hj7).mp hpj) (hmin j hj)

theorem find?_range7_eq_none_iff {p : Nat → Bool} {P : Nat → Prop}
    (hpt : ∀ j, j < 7 → (p j = true ↔ P j)) (hbound : ∀ j, P j → j < 7) :
    ((List.range 7).find? p = none ↔ ∀ j, ¬ P j) := by
  rw [find?_range_eq_none]
  constructor
  · intro h j hPj
    have hj7 := hbound j hPj
    have hfalse := h j hj7
    rw [(hpt j hj7).mpr hPj] at hfalse
    cases hfalse
  · intro h j hj7
    cases hpj : p j
    · rfl
    · exact absurd ((hpt j hj7).mp hpj) (h j)

/-- Pointwise reading of the win / block tier predicate. -/
theorem tierWin_pred_iff (b : Board) (piece : Cell) (hgrid : isGrid b) :
    ∀ j, j < 7 →
      ((canPlacePiece b j && (wouldWin b (getLowestEmptyRow b j) j piece).1) = true
        ↔ (isLegal b j ∧ winsAfterDrop b j piece)) := by
  intro j hj
  rw [Bool.and_eq_true]
  constructor
  · rintro ⟨hcp, hw⟩
    refine ⟨⟨by rw [cols_eq]; exact hj, of_decide_eq_true hcp⟩,
      (wouldWin_fst_iff b j piece hgrid hj hcp).mp hw⟩
  · rintro ⟨⟨hj7, hemp⟩, hwin⟩
    have hcp : canPlacePiece b j = true := decide_eq_true hemp
    exact ⟨hcp, (wouldWin_fst_iff b j piece hgrid hj hcp).mpr hwin⟩

/-- Pointwise reading of the build tier predicate. -/
theorem tierThree_pred_iff (b : Board) (piece : Cell) (hgrid : isGrid b) :
    ∀ j, j < 7 →
      ((canPlacePiece b j && (createsThreeInRow b (getLowestEmptyRow b j) j piece).1) = true
        ↔ (isLegal b j ∧ buildsThreeAfterDrop b j piece)) := by
  intro j hj
  rw [Bool.and_eq_true]
  constructor
  · rintro ⟨hcp, hw⟩
    refine ⟨⟨by rw [cols_eq]; exact hj, of_decide_eq_true hcp⟩,
      (createsThree_fst_iff b j piece hgrid hj hcp).mp hw⟩
  · rintro ⟨⟨hj7, hemp⟩, hwin⟩
    have hcp : canPlacePiece b j = true := decide_eq_true hemp
    exact ⟨hcp, (createsThree_fst_iff b j piece hgrid hj hcp).mpr hwin⟩

theorem isLegal_lt7 {b : Board} {j : Nat} (h : isLegal b j) : j < 7 := by
  have := h.1
  rwa [cols_eq] at this

theorem canPlace_center_iff (b : Board) :
    canPlacePiece b centerCol = true ↔ isLegal b centerCol := by
  unfold canPlacePiece isLegal
  rw [decide_eq_true_eq]
  constructor
  · intro h
    exact ⟨by decide, h⟩
  · rintro ⟨-, h⟩
    exact h

set_option maxRecDepth 10000 in
/-- The stable sort's head, checked against the "closest to center, ties
to the lower index" selection on every subset of the column range. -/
theorem sortByCenter_head_spec :
    ∀ l ∈ (List.range 7).sublists,
      (sortByCenter l).head?
        = l.find? (fun c => l.all (fun d =>
            decide (centerDist c < centerDist d ∨
              (centerDist c = centerDist d ∧ c ≤ d)))) := by
  decide

theorem getValidMoves_sublist (b : Board) :
    getValidMoves b ∈ (List.range 7).sublists := by
  rw [List.mem_sublists]
  unfold getValidMoves
  rw [cols_eq]
  exact List.filter_sublist _

/-- The fallback tier: when some legal column exists, the head of the
sorted valid moves is the legal column closest to the center, ties going
to the lower index. -/
theorem tier5_spec (b : Board) (hleg : ∃ c, isLegal b c) :
    ∃ col, (sortByCenter (getValidMoves b)).head? = some col ∧ isLegal b col ∧
      ∀ d, isLegal b d → centerDist col < centerDist d ∨
        (centerDist col = centerDist d ∧ col ≤ d) := by
  obtain ⟨c0, hc0⟩ := hleg
  have hc0m : c0 ∈ getValidMoves b :=
    mem_getValidMoves.mpr ⟨isLegal_lt7 hc0, decide_eq_true hc0.2⟩
  have hne : getValidMoves b ≠ [] := by
    intro h
    rw [h] at hc0m
    cases hc0m
  have hspec := sortByCenter_head_spec (getValidMoves b) (getValidMoves_sublist b)
  rcases hfind : (getValidMoves b).find? (fun c => (getValidMoves b).all (fun d =>
      decide (centerDist c < centerDist d ∨
        (centerDist c = centerDist d ∧ c ≤ d)))) with _ | col
  · exfalso
    rw [hfind] at hspec
    rcases hs : sortByCenter (getValidMoves b) with _ | ⟨x, xs⟩
    · have hlenvm := length_sortByCenter (getValidMoves b)
      rw [hs] at hlenvm
      exact hne (List.length_eq_zero.mp hlenvm.symm)
    · rw [hs] at hspec
      cases hspec
  · rw [hfind] at hspec
    have hmem := List.mem_of_find?_eq_some hfind
    have hpred := List.find?_some hfind
    simp only [List.all_eq_true, decide_eq_true_eq] at hpred
    refine ⟨col, hspec, ?_, ?_⟩
    · obtain ⟨h7, hcp⟩ := mem_getValidMoves.mp hmem
      exact ⟨by rw [cols_eq]; exact h7, of_decide_eq_true hcp⟩
    · intro d hd
      exact hpred d
        (mem_getValidMoves.mpr ⟨isLegal_lt7 hd, decide_eq_true hd.2⟩)

/-- C4: on a 6 by 7 grid with at least one legal column, `getBestMove`
returns precisely the column the spec's five-tier priority cascade
selects: first winning column, else first blocking column, else first
run-of-three building column, else the middle column if legal, else the
legal column closest to the middle with ties to the lower index.  Being
a function of the board and side, it is deterministic. -/
theorem getBestMove_follows_cascade (b : Board) (side : Turn)
    (hgrid : isGrid b) (hleg : ∃ c, isLegal b c) :
    ∃ col, (getBestMove b side).1 = some col ∧ cascadeSelects b side col := by
  have bound1 : ∀ j, (isLegal b j ∧ winsAfterDrop b j side.toCell) → j < 7 :=
    fun j h => isLegal_lt7 h.1
  have bound2 : ∀ j, (isLegal b j ∧ winsAfterDrop b j side.other.toCell) → j < 7 :=
    fun j h => isLegal_lt7 h.1
  have bound3 : ∀ j, (isLegal b j ∧ buildsThreeAfterDrop b j side.toCell) → j < 7 :=
    fun j h => isLegal_lt7 h.1
  rw [getBestMove_fst]
  unfold bestMoveFst
  rw [cols_eq]
  rcases h1 : (List.range 7).find? (fun col => canPlacePiece b col &&
      (wouldWin b (getLowestEmptyRow b col) col side.toCell).1) with _ | c1
  · rcases h2 : (List.range 7).find? (fun col => canPlacePiece b col &&
        (wouldWin b (getLowestEmptyRow b col) col side.other.toCell).1) with _ | c2
    · rcases h3 : (List.range 7).find? (fun col => canPlacePiece b col &&
          (createsThreeInRow b (getLowestEmptyRow b col) col side.toCell).1) with _ | c3
      · by_cases hc : canPlacePiece b centerCol = true
        · refine ⟨centerCol, by rw [if_pos hc], ?_⟩
          right
          right
          right
          left
          exact ⟨(find?_range7_eq_none_iff (tierWin_pred_iff b side.toCell hgrid)
                bound1).mp h1,
            (find?_range7_eq_none_iff (tierWin_pred_iff b side.other.toCell hgrid)
                bound2).mp h2,
            (find?_range7_eq_none_iff (tierThree_pred_iff b side.toCell hgrid)
                bound3).mp h3,
            (canPlace_center_iff b).mp hc, rfl⟩
        · obtain ⟨col, hhead, hlegc, hmin⟩ := tier5_spec b hleg
          refine ⟨col, by rw [if_neg hc]; exact hhead, ?_⟩
          right
          right
          right
          right
          refine ⟨(find?_range7_eq_none_iff (tierWin_pred_iff b side.toCell hgrid)
                bound1).mp h1,
            (find?_range7_eq_none_iff (tierWin_pred_iff b side.other.toCell hgrid)
                bound2).mp h2,
            (find?_range7_eq_none_iff (tierThree_pred_iff b side.toCell hgrid)
                bound3).mp h3,
            ?_, hlegc, hmin⟩
          intro hlegC
          exact hc ((canPlace_center_iff b).mpr hlegC)
      · refine ⟨c3, rfl, ?_⟩
        right
        right
        left
        exact ⟨(find?_range7_eq_none_iff (tierWin_pred_iff b side.toCell hgrid)
              bound1).mp h1,
          (find?_range7_eq_none_iff (tierWin_pred_iff b side.other.toCell hgrid)
              bound2).mp h2,
          (find?_range7_eq_some_iff (tierThree_pred_iff b side.toCell hgrid)
              bound3 c3).mp h3⟩
    · refine ⟨c2, rfl, ?_⟩
      right
      left
      exact ⟨(find?_range7_eq_none_iff (tierWin_pred_iff b side.toCell hgrid)
            bound1).mp h1,
        (find?_range7_eq_some_iff (tierWin_pred_iff b side.other.toCell hgrid)
            bound2 c2).mp h2⟩
  · refine ⟨c1, rfl, ?_⟩
    left
    exact (find?_range7_eq_some_iff (tierWin_pred_iff b side.toCell hgrid)
        bound1 c1).mp h1

/-- Side A with three in a row at (5,0)..(5,2), completable at column 3. -/
def demoWin3Board : Board :=
  [emptyRow7, emptyRow7, emptyRow7, emptyRow7, emptyRow7,
   [Cell.player1, Cell.player1, Cell.player1, Cell.empty, Cell.empty,
    Cell.empty, Cell.empty]]

/-- Witness for C4: on the literal board where side A completes
four-in-a-row at column 3, `getBestMove` returns 3 for A (win tier), and
returns 3 for B as well (block tier). -/
theorem getBestMove_follows_cascade_witness :
    isGrid demoWin3Board ∧
    (∃ col, (getBestMove demoWin3Board Turn.player1).1 = some col ∧
      cascadeSelects demoWin3Board Turn.player1 col) ∧
    (getBestMove demoWin3Board Turn.player1).1 = some 3 ∧
    (getBestMove demoWin3Board Turn.player2).1 = some 3 :=
  ⟨by decide,
   getBestMove_follows_cascade demoWin3Board Turn.player1 (by decide)
     ⟨3, by decide⟩,
   by decide, by decide⟩

/-- C10: on a 6 by 7 grid, if some column's top cell is empty then
`getBestMove` returns a legal drop (a column below 7 with an empty top
cell); and on a grid with every column full, the fallback takes the head
of an empty list of valid moves, so no valid column comes back (the
`undefined` of `sortedMoves[0]`, modelled as `none`). -/
theorem getBestMove_legal_of_nonfull (b : Board) (side : Turn)
    (_hgrid : isGrid b) :
    ((∃ c, isLegal b c) →
      ∃ c, (getBestMove b side).1 = some c ∧ isLegal b c) ∧
    ((∀ c : Nat, c < 7 → cellAt b 0 (c : Int) ≠ Cell.empty) →
      (getBestMove b side).1 = none) := by
  rw [getBestMove_fst]
  unfold bestMoveFst
  rw [cols_eq]
  constructor
  · intro hleg
    rcases h1 : (List.range 7).find? (fun col => canPlacePiece b col &&
        (wouldWin b (getLowestEmptyRow b col) col side.toCell).1) with _ | c1
    · rcases h2 : (List.range 7).find? (fun col => canPlacePiece b col &&
          (wouldWin b (getLowestEmptyRow b col) col side.other.toCell).1) with _ | c2
      · rcases h3 : (List.range 7).find? (fun col => canPlacePiece b col &&
            (createsThreeInRow b (getLowestEmptyRow b col) col side.toCell).1) with _ | c3
        · by_cases hc : canPlacePiece b centerCol = true
          · exact ⟨centerCol, by rw [if_pos hc], (canPlace_center_iff b).mp hc⟩
          · obtain ⟨col, hhead, hlegc, -⟩ := tier5_spec b hleg
            exact ⟨col, by rw [if_neg hc]; exact hhead, hlegc⟩
        · obtain ⟨hc37, hpred, -⟩ := find?_range_eq_some.mp h3
          rw [Bool.and_eq_true] at hpred
          exact ⟨c3, rfl, ⟨by rw [cols_eq]; exact hc37,
            of_decide_eq_true hpred.1⟩⟩
      · obtain ⟨hc27, hpred, -⟩ := find?_range_eq_some.mp h2
        rw [Bool.and_eq_true] at hpred
        exact ⟨c2, rfl, ⟨by rw [cols_eq]; exact hc27,
          of_decide_eq_true hpred.1⟩⟩
    · obtain ⟨hc17, hpred, -⟩ := find?_range_eq_some.mp h1
      rw [Bool.and_eq_true] at hpred
      exact ⟨c1, rfl, ⟨by rw [cols_eq]; exact hc17,
        of_decide_eq_true hpred.1⟩⟩
  · intro hfull
    have hcp : ∀ c, c < 7 → canPlacePiece b c = false := by
      intro c hc
      cases h : canPlacePiece b c
      · rfl
      · exact absurd (of_decide_eq_true h) (hfull c hc)
    have h1 : (List.range 7).find? (fun col => canPlacePiece b col &&
        (wouldWin b (getLowestEmptyRow b col) col side.toCell).1) = none :=
      find?_range_eq_none.mpr fun j hj => by rw [hcp j hj]; rfl
    have h2 : (List.range 7).find? (fun col => canPlacePiece b col &&
        (wouldWin b (getLowestEmptyRow b col) col side.other.toCell).1) = none :=
      find?_range_eq_none.mpr fun j hj => by rw [hcp j hj]; rfl
    have h3 : (List.range 7).find? (fun col => canPlacePiece b col &&
        (createsThreeInRow b (getLowestEmptyRow b col) col side.toCell).1) = none :=
      find?_range_eq_none.mpr fun j hj => by rw [hcp j hj]; rfl
    have hcenter : canPlacePiece b centerCol = false := hcp centerCol (by decide)
    have hvm : getValidMoves b = [] := by
      unfold getValidMoves
      rw [cols_eq]
      rw [List.filter_eq_nil_iff]
      intro a ha
      rw [hcp a (List.mem_range.mp ha)]
      simp
    simp only [h1, h2, h3]
    rw [if_neg (by rw [hcenter]; simp)]
    rw [hvm]
    rfl

/-- Witness for C10: on the empty board the returned move is a legal
drop. -/
theorem getBestMove_legal_of_nonfull_witness :
    isGrid emptyBoard ∧
    (∃ c, (getBestMove emptyBoard Turn.player1).1 = some c ∧
      isLegal emptyBoard c) :=
  ⟨by decide,
   (getBestMove_legal_of_nonfull emptyBoard Turn.player1 (by decide)).1
     ⟨3, by decide⟩⟩

/-! ## Claim theorems: matchmaking (C5) -/

/-- Queue shape maintained by the matchmaking service: every waiting
entry carries the same participant identity (a caller with that identity
is refused a match, and a caller with a different identity consumes the
first entry). -/
def queueUniform (st : MMState) : Prop :=
  ∀ q ∈ st.waitingPlayers, ∀ q' ∈ st.waitingPlayers,
    q.2.player.id = q'.2.player.id

instance (st : MMState) : Decidable (queueUniform st) := by
  unfold queueUniform
  infer_instance

theorem mem_assocSet {β : Type} {m : List (String × β)} {k : String} {v : β}
    {q : String × β} (hq : q ∈ assocSet m k v) : q ∈ m ∨ q = (k, v) := by
  unfold assocSet at hq
  split at hq
  · rw [List.mem_map] at hq
    obtain ⟨orig, horig, hfq⟩ := hq
    by_cases ho : (orig.1 == k) = true
    · rw [if_pos ho] at hfq
      right
      exact hfq.symm
    · rw [if_neg ho] at hfq
      left
      rw [← hfq]
      exact horig
  · rw [List.mem_append] at hq
    rcases hq with hq | hq
    · left
      exact hq
    · right
      simpa using hq

/-- A fresh matchmaking state: empty queue, no armed timers, empty registry. -/
def demoMMEmpty : MMState := ⟨[], [], 0, []⟩

def demoPA : Player := ⟨"pa", "ann", "sa", false⟩

def demoPB : Player := ⟨"pb", "ben", "sb", false⟩

/-- The state after the first player enqueues into the empty queue. -/
def demoMM1 : MMState := (addPlayerToQueue demoMMEmpty demoPA "gQ" 1).2

/-- C5: the enqueue discipline.  The all-same-identity queue shape holds
for the empty queue and is preserved by enqueue and dequeue; under it,
an enqueue finding any waiting entry of a different identity matches
immediately — the head entry's timer is cancelled, its entry removed, a
session is created with the waiting participant as `player1` and the
caller joined as `player2`, and the session id is returned — while an
enqueue finding only entries of its own identity (or an empty queue)
returns `none` and parks the caller with an armed timeout. -/
theorem enqueue_matches_or_waits (st : MMState) (p : Player) (ngid : String)
    (now : Nat) (sock : String) :
    (∀ ts n reg, queueUniform ⟨[], ts, n, reg⟩) ∧
    (queueUniform st → queueUniform (addPlayerToQueue st p ngid now).2) ∧
    (queueUniform st → queueUniform (removePlayerFromQueue st sock)) ∧
    (queueUniform st →
      (∃ q ∈ st.waitingPlayers, q.2.player.id ≠ p.id) →
      ∃ k e, st.waitingPlayers.head? = some (k, e) ∧
        (addPlayerToQueue st p ngid now).1 = some ngid ∧
        (addPlayerToQueue st p ngid now).2.activeTimers
          = st.activeTimers.erase e.timerId ∧
        (∀ q ∈ (addPlayerToQueue st p ngid now).2.waitingPlayers,
          q.1 ≠ e.player.socketId) ∧
        ∃ gfin,
          lookupGame (addPlayerToQueue st p ngid now).2.registry ngid
            = some gfin ∧
          gfin.player1 = e.player ∧ gfin.player2 = some p ∧
          gfin.status = Status.active) ∧
    ((∀ q ∈ st.waitingPlayers, q.2.player.id = p.id) →
      (addPlayerToQueue st p ngid now).1 = none ∧
      assocGet (addPlayerToQueue st p ngid now).2.waitingPlayers p.socketId
        = some ⟨p, st.nextTimerId⟩ ∧
      st.nextTimerId ∈ (addPlayerToQueue st p ngid now).2.activeTimers) := by
  refine ⟨?_, ?_, ?_, ?_, ?_⟩
  · intro ts n reg q hq
    cases hq
  · intro hq
    rcases hwp : st.waitingPlayers with _ | ⟨⟨k, e⟩, rest⟩
    · have hhead : st.waitingPlayers.head? = none := by
        rw [hwp]
        rfl
      have hred : (addPlayerToQueue st p ngid now).2
          = { st with
              waitingPlayers :=
                mapSetEntry st.waitingPlayers p.socketId ⟨p, st.nextTimerId⟩,
              activeTimers := st.nextTimerId :: st.activeTimers,
              nextTimerId := st.nextTimerId + 1 } := by
        simp only [addPlayerToQueue, hhead]
      rw [hred]
      intro q hqm q' hqm'
      rcases mem_assocSet hqm with hold | hnew
      · rw [hwp] at hold
        cases hold
      · rcases mem_assocSet hqm' with hold' | hnew'
        · rw [hwp] at hold'
          cases hold'
        · rw [hnew, hnew']
    · have hhead : st.waitingPlayers.head? = some (k, e) := by
        rw [hwp]
        rfl
      have hkem : (k, e) ∈ st.waitingPlayers := by
        rw [hwp]
        exact List.mem_cons_self _ _
      by_cases hid : e.player.id ≠ p.id
      · intro q hqm q' hqm'
        have hred : (addPlayerToQueue st p ngid now).2.waitingPlayers
            = st.waitingPlayers.filter
                (fun q => ¬ (q.1 = e.player.socketId)) := by
          simp only [addPlayerToQueue, hhead, if_pos hid]
        rw [hred] at hqm hqm'
        exact hq q (List.mem_of_mem_filter hqm) q' (List.mem_of_mem_filter hqm')
      · have hred : (addPlayerToQueue st p ngid now).2
            = { st with
                waitingPlayers :=
                  mapSetEntry st.waitingPlayers p.socketId ⟨p, st.nextTimerId⟩,
                activeTimers := st.nextTimerId :: st.activeTimers,
                nextTimerId := st.nextTimerId + 1 } := by
          simp only [addPlayerToQueue, hhead, if_neg hid]
        rw [hred]
        push_neg at hid
        have hall : ∀ q ∈ mapSetEntry st.waitingPlayers p.socketId
            ⟨p, st.nextTimerId⟩, q.2.player.id = p.id := by
          intro q hqm
          rcases mem_assocSet hqm with hold | hnew
          · rw [hq q hold (k, e) hkem]
            exact hid
          · rw [hnew]
        intro q hqm q' hqm'
        rw [hall q hqm, hall q' hqm']
  · intro hq
    unfold removePlayerFromQueue
    rcases hf : st.waitingPlayers.find? (fun q => q.1 == sock) with _ | ⟨k, e⟩
    · simp only [hf]
      exact hq
    · simp only [hf]
      intro q hqm q' hqm'
      exact hq q (List.mem_of_mem_filter hqm) q' (List.mem_of_mem_filter hqm')
  · intro hq hex
    obtain ⟨q0, hq0m, hq0id⟩ := hex
    rcases hwp : st.waitingPlayers with _ | ⟨⟨k, e⟩, rest⟩
    · rw [hwp] at hq0m
      cases hq0m
    · have hhead : st.waitingPlayers.head? = some (k, e) := by
        rw [hwp]
        rfl
      have hkem : (k, e) ∈ st.waitingPlayers := by
        rw [hwp]
        exact List.mem_cons_self _ _
      have hid : e.player.id ≠ p.id := by
        rw [hq (k, e) hkem q0 hq0m]
        exact hq0id
      have hlg : lookupGame (storeGame st.registry ngid
          { id := ngid, board := emptyBoard, player1 := e.player,
            player2 := none, currentTurn := .player1, status := .waiting,
            winner := none, createdAt := now, lastMoveAt := now,
            disconnectedPlayer := none, disconnectTimer := none }) ngid
          = some
          { id := ngid, board := emptyBoard, player1 := e.player,
            player2 := none, currentTurn := .player1, status := .waiting,
            winner := none, createdAt := now, lastMoveAt := now,
            disconnectedPlayer := none, disconnectTimer := none } :=
        assocGet_set_self st.registry ngid _
      have hjoin : joinGame (storeGame st.registry ngid
          { id := ngid, board := emptyBoard, player1 := e.player,
            player2 := none, currentTurn := .player1, status := .waiting,
            winner := none, createdAt := now, lastMoveAt := now,
            disconnectedPlayer := none, disconnectTimer := none }) ngid p
          = (some
              { id := ngid, board := emptyBoard, player1 := e.player,
                player2 := some p, currentTurn := .player1,
                status := .active, winner := none, createdAt := now,
                lastMoveAt := now, disconnectedPlayer := none,
                disconnectTimer := none },
             storeGame (storeGame st.registry ngid
               { id := ngid, board := emptyBoard, player1 := e.player,
                 player2 := none, currentTurn := .player1, status := .waiting,
                 winner := none, createdAt := now, lastMoveAt := now,
                 disconnectedPlayer := none, disconnectTimer := none }) ngid
               { id := ngid, board := emptyBoard, player1 := e.player,
                 player2 := some p, currentTurn := .player1,
                 status := .active, winner := none, createdAt := now,
                 lastMoveAt := now, disconnectedPlayer := none,
                 disconnectTimer := none }) := by
        unfold joinGame
        rw [hlg]
        simp
      have hred : addPlayerToQueue st p ngid now
          = (some ngid,
             { st with
                waitingPlayers := st.waitingPlayers.filter
                  (fun q => ¬ (q.1 = e.player.socketId)),
                activeTimers := st.activeTimers.erase e.timerId,
                registry := storeGame (storeGame st.registry ngid
                  { id := ngid, board := emptyBoard, player1 := e.player,
                    player2 := none, currentTurn := .player1,
                    status := .waiting, winner := none, createdAt := now,
                    lastMoveAt := now, disconnectedPlayer := none,
                    disconnectTimer := none }) ngid
                  { id := ngid, board := emptyBoard, player1 := e.player,
                    player2 := some p, currentTurn := .player1,
                    status := .active, winner := none, createdAt := now,
                    lastMoveAt := now, disconnectedPlayer := none,
                    disconnectTimer := none } }) := by
        simp only [addPlayerToQueue, hhead, if_pos hid, createGame, hjoin]
      refine ⟨k, e, rfl, by rw [hred], by rw [hred], ?_, ?_⟩
      · intro q hqm
        rw [hred] at hqm
        have hqf := List.of_mem_filter hqm
        rw [decide_eq_true_eq] at hqf
        exact hqf
      · have hfin : lookupGame (addPlayerToQueue st p ngid now).2.registry ngid
            = some
            { id := ngid, board := emptyBoard, player1 := e.player,
              player2 := some p, currentTurn := Turn.player1,
              status := Status.active, winner := none, createdAt := now,
              lastMoveAt := now, disconnectedPlayer := none,
              disconnectTimer := none } := by
          rw [hred]
          exact assocGet_set_self _ ngid _
        exact ⟨_, hfin, rfl, rfl, rfl⟩
  · intro hq
    rcases hwp : st.waitingPlayers with _ | ⟨⟨k, e⟩, rest⟩
    · have hhead : st.waitingPlayers.head? = none := by
        rw [hwp]
        rfl
      have hred : addPlayerToQueue st p ngid now
          = (none,
             { st with
                waitingPlayers :=
                  mapSetEntry st.waitingPlayers p.socketId ⟨p, st.nextTimerId⟩,
                activeTimers := st.nextTimerId :: st.activeTimers,
                nextTimerId := st.nextTimerId + 1 }) := by
        simp only [addPlayerToQueue, hhead]
      rw [hred]
      exact ⟨rfl, assocGet_set_self _ _ _, List.mem_cons_self _ _⟩
    · have hhead : st.waitingPlayers.head? = some (k, e) := by
        rw [hwp]
        rfl
      have hkem : (k, e) ∈ st.waitingPlayers := by
        rw [hwp]
        exact List.mem_cons_self _ _
      have hid : ¬ (e.player.id ≠ p.id) := by
        push_neg
        exact hq (k, e) hkem
      have hred : addPlayerToQueue st p ngid now
          = (none,
             { st with
                waitingPlayers :=
                  mapSetEntry st.waitingPlayers p.socketId ⟨p, st.nextTimerId⟩,
                activeTimers := st.nextTimerId :: st.activeTimers,
                nextTimerId := st.nextTimerId + 1 }) := by
        simp only [addPlayerToQueue, hhead, if_neg hid]
      rw [hred]
      exact ⟨rfl, assocGet_set_self _ _ _, List.mem_cons_self _ _⟩

/-- Witness for C5: on concrete states, the first player's enqueue into
the empty queue returns `none` (the player is parked), and the second
player's enqueue matches, creating an active session with the first
player as `player1` and the second as `player2`. -/
theorem enqueue_matches_or_waits_witness :
    (addPlayerToQueue demoMMEmpty demoPA "gQ" 1).1 = none ∧
    (addPlayerToQueue demoMM1 demoPB "gQ2" 2).1 = some "gQ2" ∧
    ∃ gfin,
      lookupGame (addPlayerToQueue demoMM1 demoPB "gQ2" 2).2.registry "gQ2"
        = some gfin ∧
      gfin.player1 = demoPA ∧ gfin.player2 = some demoPB ∧
      gfin.status = Status.active := by
  have h1 := (enqueue_matches_or_waits demoMMEmpty demoPA "gQ" 1 "s").2.2.2.2
    (by decide)
  have h2 := (enqueue_matches_or_waits demoMM1 demoPB "gQ2" 2 "s").2.2.2.1
    (by decide) ⟨("sa", ⟨demoPA, 0⟩), by decide, by decide⟩
  obtain ⟨k, e, hhead, hret, htim, hrem, gfin, hlg, hp1, hp2, hstat⟩ := h2
  have hh : demoMM1.waitingPlayers.head?
      = some ("sa", (⟨demoPA, 0⟩ : WaitingEntry)) := by decide
  rw [hh] at hhead
  obtain ⟨hk, he⟩ := Prod.ext_iff.mp (Option.some.inj hhead)
  refine ⟨h1.1, hret, gfin, hlg, ?_, hp2, hstat⟩
  have he' : e = ⟨demoPA, 0⟩ := he.symm
  rw [hp1, he']

end Connect4
